import Mathlib

/-!
# Verification of the casso incremental constraint solver

Shallow embedding of the Cassowary-style simplex solver from `solver.go`
(together with the expression algebra from `math.go`) and proofs about it.

Modelling conventions:
* `float64` is modelled by `ℚ` (the concrete scenarios of the spec only use
  arithmetic that is exact in both).
* Go maps (`map[SymbolID]...`) are modelled by association lists in insertion
  order; `mapInsert` overwrites in place, `mapErase` removes the key.
* Go map *iteration* order is unspecified at runtime.  Every `for ... range`
  over a map is therefore parameterised by an iteration-order oracle
  `ord : List SymbolID → List SymbolID` applied to the key list; `ordId`
  (insertion order) and `ordRev` (reversed) are two legal instantiations.
* Unbounded simplex loops (`optimizeAgainst`, `optimizeDualObjective`) take
  fuel; `none` means the fuel ran out.
* Lookups of missing map keys yield Go zero values where the source relies on
  that (`symbols` lookup defaults to External, `tabs` lookup to the zero
  `Constraint`, `tags` lookup to the zero `Tag`).
-/

namespace Casso

/-- Symbol identifiers (`type SymbolID int`). -/
abbrev SymbolID := Int

/-- `const InvalidSymbolID SymbolID = -1`. -/
def InvalidSymbolID : SymbolID := -1

/-- Symbol kinds (`External`, `Slack`, `Error`, `Dummy`). -/
inductive Symbol
  | external
  | slack
  | error
  | dummy
deriving DecidableEq, Repr

/-- `func (s Symbol) Restricted() bool { return s == Slack || s == Error }` -/
def Symbol.restricted : Symbol → Bool
  | .slack => true
  | .error => true
  | _ => false

/-- Priorities (`type Priority int`, `Weak`/`Medium`/`Strong`/`Required`). -/
abbrev Priority := Int

def Weak : Priority := 0

def Medium : Priority := 1

def Strong : Priority := 2

def Required : Priority := 3

/-- `PriorityTable` lookup (`func (p Priority) Val() float64`).  Go panics on
an out-of-range index; no code path settled below evaluates it outside
`0 ≤ p < Required`, and the out-of-range result is modelled as `0`. -/
def Priority.val : Priority → ℚ
  | 0 => 1
  | 1 => 1000
  | 2 => 1000000
  | 3 => 1000000000
  | _ => 0

/-- Constraint operators. -/
inductive Op
  | eq
  | gte
  | lte
deriving DecidableEq, Repr

/-- A term: `coeff * id` (`type Term struct`). -/
structure Term where
  coeff : ℚ
  id : SymbolID
deriving DecidableEq, Repr

/-- A linear expression: constant plus terms (`type Expr struct`). -/
structure Expr where
  constant : ℚ
  terms : List Term
deriving DecidableEq, Repr

/-- A constraint `expr op 0` (`type Constraint struct`). -/
structure Constraint where
  op : Op
  expr : Expr
deriving DecidableEq, Repr

/-- The Go zero value of `Constraint` (returned by a missing map lookup). -/
def zeroConstraint : Constraint := ⟨.eq, ⟨0, []⟩⟩

/-- `func zero(val float64) bool`: `|val| < 1e-8`. -/
def zero (val : ℚ) : Bool :=
  if val < 0 then -val < 1 / 100000000 else val < 1 / 100000000

/-- Coefficient of the first term with the given symbol, if any
(`Expr.find` followed by reading `terms[idx].coeff`). -/
def findTerm? : List Term → SymbolID → Option ℚ
  | [], _ => none
  | t :: ts, id => if t.id = id then some t.coeff else findTerm? ts id

/-- Remove the first term with the given symbol (`Expr.delete` at the index
returned by `Expr.find`). -/
def removeFirst : List Term → SymbolID → List Term
  | [], _ => []
  | t :: ts, id => if t.id = id then ts else t :: removeFirst ts id

/-- Term-list part of `Expr.addSymbol` (math.go): coalesce into the first
occurrence, deleting it when the sum lands within epsilon of zero; append a
new term at the end unless the coefficient is already within epsilon. -/
def addTerm : List Term → ℚ → SymbolID → List Term
  | [], coeff, id => if zero coeff then [] else [⟨coeff, id⟩]
  | t :: ts, coeff, id =>
    if t.id = id then
      if zero (t.coeff + coeff) then ts else ⟨t.coeff + coeff, id⟩ :: ts
    else t :: addTerm ts coeff id

/-- `func (c *Expr) addSymbol(coeff float64, id SymbolID)`. -/
def Expr.addSymbol (c : Expr) (coeff : ℚ) (id : SymbolID) : Expr :=
  { c with terms := addTerm c.terms coeff id }

/-- `func (c *Expr) addExpr(coeff float64, other Expr)`. -/
def Expr.addExpr (c : Expr) (coeff : ℚ) (other : Expr) : Expr :=
  other.terms.foldl (fun acc t => acc.addSymbol (coeff * t.coeff) t.id)
    { c with constant := c.constant + coeff * other.constant }

/-- `func (c *Expr) negate()`. -/
def Expr.negate (c : Expr) : Expr :=
  { constant := -c.constant, terms := c.terms.map (fun t => { t with coeff := -t.coeff }) }

/-- `func (c *Expr) solveFor(id SymbolID)`: drop the `id` term, then scale the
constant and every remaining coefficient by `-1/coeff(id)`.  No-op when `id`
is absent. -/
def Expr.solveFor (c : Expr) (id : SymbolID) : Expr :=
  match findTerm? c.terms id with
  | none => c
  | some k =>
    let m : ℚ := -1 / k
    { constant := c.constant * m,
      terms := (removeFirst c.terms id).map (fun t => { t with coeff := t.coeff * m }) }

/-- `func (c *Expr) solveForSymbols(lhs, rhs SymbolID)`. -/
def Expr.solveForSymbols (c : Expr) (lhs rhs : SymbolID) : Expr :=
  (c.addSymbol (-1) lhs).solveFor rhs

/-- `func (c *Expr) substitute(id SymbolID, other Expr)`. -/
def Expr.substitute (c : Expr) (id : SymbolID) (other : Expr) : Expr :=
  match findTerm? c.terms id with
  | none => c
  | some k => Expr.addExpr { c with terms := removeFirst c.terms id } k other

/-- Association-list lookup for the Go maps. -/
def mapFind? {α : Type} : List (SymbolID × α) → SymbolID → Option α
  | [], _ => none
  | e :: rest, k => if e.1 = k then some e.2 else mapFind? rest k

/-- Association-list store `m[k] = v`: overwrite the first binding in place,
otherwise append. -/
def mapInsert {α : Type} : List (SymbolID × α) → SymbolID → α → List (SymbolID × α)
  | [], k, v => [(k, v)]
  | e :: rest, k, v => if e.1 = k then (k, v) :: rest else e :: mapInsert rest k v

/-- Association-list `delete(m, k)`. -/
def mapErase {α : Type} : List (SymbolID × α) → SymbolID → List (SymbolID × α)
  | [], _ => []
  | e :: rest, k => if e.1 = k then rest else e :: mapErase rest k

/-- Key list of an association list, in insertion order. -/
def keysOf {α : Type} (m : List (SymbolID × α)) : List SymbolID :=
  m.map (fun e => e.1)

/-- Per-constraint bookkeeping (`type Tag struct`). -/
structure Tag where
  prio : Priority
  marker : SymbolID
  other : SymbolID
deriving DecidableEq, Repr

/-- The Go zero value of `Tag`. -/
def zeroTag : Tag := ⟨0, 0, 0⟩

/-- Edit-variable record (`type Edit struct`). -/
structure Edit where
  tag : Tag
  val : ℚ
deriving DecidableEq, Repr

/-- Solver state (`type Solver struct`). -/
structure Solver where
  counter : SymbolID
  symbols : List (SymbolID × Symbol)
  edits : List (SymbolID × Edit)
  tabs : List (SymbolID × Constraint)
  tags : List (SymbolID × Tag)
  infeasible : List SymbolID
  objective : Expr
  artificial : Expr
deriving DecidableEq, Repr

/-- `func NewSolver() *Solver`. -/
def newSolver : Solver :=
  { counter := 0, symbols := [], edits := [], tabs := [], tags := [],
    infeasible := [], objective := ⟨0, []⟩, artificial := ⟨0, []⟩ }

/-- `func (s *Solver) new(symbol Symbol) SymbolID`. -/
def Solver.new (s : Solver) (symbol : Symbol) : Solver × SymbolID :=
  ({ s with symbols := mapInsert s.symbols s.counter symbol, counter := s.counter + 1 },
    s.counter)

/-- `func (s *Solver) New() SymbolID`: allocate an external symbol. -/
def Solver.newExternal (s : Solver) : Solver × SymbolID :=
  s.new .external

/-- `func (s *Solver) Val(id SymbolID) float64`: the row constant of a basic
symbol, `0` otherwise. -/
def Solver.val (s : Solver) (id : SymbolID) : ℚ :=
  match mapFind? s.tabs id with
  | none => 0
  | some row => row.expr.constant

/-- `s.symbols[id]` with the Go zero-value default (`External`). -/
def Solver.symKind (s : Solver) (id : SymbolID) : Symbol :=
  (mapFind? s.symbols id).getD .external

/-- One iteration of the `for symbol := range s.tabs` loop in
`Solver.substitute`: rewrite the row, then push the row key onto the
infeasible list when the new constant is negative and the basic symbol is not
external. -/
def substStep (id : SymbolID) (expr : Expr) (s : Solver) (symbol : SymbolID) : Solver :=
  match mapFind? s.tabs symbol with
  | none => s
  | some row =>
    let row' := { row with expr := row.expr.substitute id expr }
    let s' := { s with tabs := mapInsert s.tabs symbol row' }
    if s'.symKind symbol = .external || decide (0 ≤ row'.expr.constant) then s'
    else { s' with infeasible := s'.infeasible ++ [symbol] }

/-- `func (s *Solver) substitute(id SymbolID, expr Expr)`. -/
def Solver.substitute (ord : List SymbolID → List SymbolID) (s : Solver)
    (id : SymbolID) (expr : Expr) : Solver :=
  let s1 := (ord (keysOf s.tabs)).foldl (substStep id expr) s
  { s1 with objective := s1.objective.substitute id expr,
            artificial := s1.artificial.substitute id expr }

/-- Errors surfaced by the public operations (`errors.New`/`fmt.Errorf`
values in solver.go, one constructor per distinct message). -/
inductive SolverError
  | unknownSymbol (id : SymbolID)
  | dummyUnsat
  | unsat
  | notEdit (id : SymbolID)
  | badPriority
  | badMarker
deriving DecidableEq, Repr

/-- The `for _, term := range cell.expr.terms` scan of `findSubject` rule 1:
the Go loop returns the first external term's id as soon as it sees one. -/
def externalScan (s : Solver) : List Term → Option SymbolID
  | [] => none
  | t :: ts => if s.symKind t.id = .external then some t.id else externalScan s ts

/-- The second `for` loop of `findSubject`: `false` as soon as a non-dummy
term is seen (the Go loop returns `InvalidSymbolID` there). -/
def dummyScan (s : Solver) : List Term → Bool
  | [] => true
  | t :: ts => if s.symKind t.id ≠ .dummy then false else dummyScan s ts

/-- `true` when the expression holds the symbol with a negative coefficient
(`idx != -1 && cell.expr.terms[idx].coeff < 0.0`). -/
def negCoeff (e : Expr) (id : SymbolID) : Bool :=
  match findTerm? e.terms id with
  | none => false
  | some k => decide (k < 0)

/-- `func (s *Solver) findSubject(cell Constraint, tag Tag) (SymbolID, error)`. -/
def Solver.findSubject (s : Solver) (cell : Constraint) (tag : Tag) :
    Except SolverError SymbolID :=
  match externalScan s cell.expr.terms with
  | some id => .ok id
  | none =>
    if (s.symKind tag.marker).restricted && negCoeff cell.expr tag.marker then
      .ok tag.marker
    else if (s.symKind tag.other).restricted && negCoeff cell.expr tag.other then
      .ok tag.other
    else if !dummyScan s cell.expr.terms then .ok InvalidSymbolID
    else if !zero cell.expr.constant then .error .dummyUnsat
    else .ok tag.marker

/-- The objective to optimise against: `&s.objective` or `&s.artificial`. -/
inductive Target
  | obj
  | art
deriving DecidableEq, Repr

def Solver.getTarget (s : Solver) : Target → Expr
  | .obj => s.objective
  | .art => s.artificial

/-- Entering-symbol scan of `optimizeAgainst`: first non-dummy objective term
with a negative coefficient. -/
def entryScan (s : Solver) : List Term → SymbolID
  | [] => InvalidSymbolID
  | t :: ts =>
    if s.symKind t.id = .dummy || decide (0 ≤ t.coeff) then entryScan s ts
    else t.id

/-- `r < ratio` against a running minimum that starts at `math.MaxFloat64`. -/
def ltOpt (r : ℚ) : Option ℚ → Bool
  | none => true
  | some x => decide (r < x)

/-- Leaving-row scan of `optimizeAgainst`: over non-external rows holding the
entering symbol with a negative coefficient, minimise `-constant/coeff`
(strict comparison, so ties keep the earlier row). -/
def exitScan (s : Solver) (entry : SymbolID) :
    List SymbolID → Option ℚ → SymbolID → SymbolID
  | [], _, exit => exit
  | symbol :: rest, best, exit =>
    if s.symKind symbol = .external then exitScan s entry rest best exit
    else
      match mapFind? s.tabs symbol with
      | none => exitScan s entry rest best exit
      | some row =>
        match findTerm? row.expr.terms entry with
        | none => exitScan s entry rest best exit
        | some coeff =>
          if 0 ≤ coeff then exitScan s entry rest best exit
          else
            let r := -row.expr.constant / coeff
            if ltOpt r best then exitScan s entry rest (some r) symbol
            else exitScan s entry rest best exit

/-- One pivot of `optimizeAgainst` (the loop body after an entering symbol is
found).  A missing leaving row reproduces Go's behaviour on the zero
`Constraint` value. -/
def pivotStep (ord : List SymbolID → List SymbolID) (s : Solver) (entry : SymbolID) :
    Solver :=
  let exit := exitScan s entry (ord (keysOf s.tabs)) none InvalidSymbolID
  let row := (mapFind? s.tabs exit).getD zeroConstraint
  let s1 := { s with tabs := mapErase s.tabs exit, symbols := mapErase s.symbols exit }
  let row' := { row with expr := row.expr.solveForSymbols exit entry }
  let s2 := Solver.substitute ord s1 entry row'.expr
  { s2 with tabs := mapInsert s2.tabs entry row' }

/-- `func (s *Solver) optimizeAgainst(objective *Expr) error` (fuelled; the Go
function itself never returns a non-nil error). -/
def Solver.optimizeAgainst (ord : List SymbolID → List SymbolID) :
    Nat → Target → Solver → Option Solver
  | 0, _, _ => none
  | fuel + 1, tgt, s =>
    let entry := entryScan s (s.getTarget tgt).terms
    if entry = InvalidSymbolID then some s
    else Solver.optimizeAgainst ord fuel tgt (pivotStep ord s entry)

/-- First restricted term of the dropped artificial row
(`optimizeAgainstRow`'s entry scan). -/
def restrictedScan (s : Solver) : List Term → SymbolID
  | [] => InvalidSymbolID
  | t :: ts => if (s.symKind t.id).restricted then t.id else restrictedScan s ts

/-- One iteration of `optimizeAgainstRow`'s scrub loop: delete the artificial
symbol's term from a row. -/
def scrubStep (id : SymbolID) (acc : Solver) (symbol : SymbolID) : Solver :=
  match mapFind? acc.tabs symbol with
  | none => acc
  | some row =>
    match findTerm? row.expr.terms id with
    | none => acc
    | some _ =>
      let row' := { row with expr := { row.expr with terms := removeFirst row.expr.terms id } }
      { acc with tabs := mapInsert acc.tabs symbol row' }

/-- Tail of `optimizeAgainstRow`: scrub the artificial symbol from every row
and from the objective, then surface `unsatisfiable` when the artificial
objective's residual constant was not within epsilon of zero. -/
def scrubFinish (ord : List SymbolID → List SymbolID) (s : Solver) (id : SymbolID)
    (success : Bool) : Solver × Option SolverError :=
  let s1 := (ord (keysOf s.tabs)).foldl (scrubStep id) s
  let s2 :=
    match findTerm? s1.objective.terms id with
    | none => s1
    | some _ =>
      { s1 with objective := { s1.objective with terms := removeFirst s1.objective.terms id } }
  if success then (s2, none) else (s2, some .unsat)

/-- `func (s *Solver) optimizeAgainstRow(row Constraint) error`: the
artificial-variable phase. -/
def Solver.optimizeAgainstRow (ord : List SymbolID → List SymbolID) (fuel : Nat)
    (s : Solver) (row : Constraint) : Option (Solver × Option SolverError) :=
  let p := s.new .slack
  let s1 := p.1
  let id := p.2
  let s2 := { s1 with tabs := mapInsert s1.tabs id row, artificial := row.expr }
  match Solver.optimizeAgainst ord fuel .art s2 with
  | none => none
  | some s3 =>
    let success := zero s3.artificial.constant
    let s4 := { s3 with artificial := ⟨0, []⟩ }
    match mapFind? s4.tabs id with
    | some artRow =>
      let s5 := { s4 with tabs := mapErase s4.tabs id, symbols := mapErase s4.symbols id }
      if artRow.expr.terms.isEmpty then some (s5, none)
      else
        let entry := restrictedScan s5 artRow.expr.terms
        if entry = InvalidSymbolID then some (s5, some .unsat)
        else
          let artRow' := { artRow with expr := artRow.expr.solveForSymbols id entry }
          let s6 := Solver.substitute ord s5 entry artRow'.expr
          let s7 := { s6 with tabs := mapInsert s6.tabs entry artRow' }
          some (scrubFinish ord s7 id success)
    | none => some (scrubFinish ord s4 id success)

/-- The resolve loop of `AddConstraintWithPriority`: skip near-zero input
coefficients, reject unregistered symbols, and substitute rows of symbols
that are already basic. -/
def Solver.resolveTerms (s : Solver) : List Term → Expr → Except SolverError Expr
  | [], acc => .ok acc
  | t :: ts, acc =>
    if zero t.coeff then s.resolveTerms ts acc
    else
      match mapFind? s.symbols t.id with
      | none => .error (.unknownSymbol t.id)
      | some _ =>
        match mapFind? s.tabs t.id with
        | none => s.resolveTerms ts (acc.addSymbol t.coeff t.id)
        | some resolved => s.resolveTerms ts (acc.addExpr t.coeff resolved.expr)

/-- The `switch c.op` augmentation of `AddConstraintWithPriority`: insert
slack/error/dummy symbols according to operator and priority, accumulating
error weights onto the objective.  Returns the updated solver, the tag and
the augmented expression. -/
def Solver.augment (s : Solver) (prio : Priority) (op : Op) (e : Expr) :
    Solver × Tag × Expr :=
  match op with
  | .lte | .gte =>
    let coeff : ℚ := if op = .gte then -1 else 1
    let p := s.new .slack
    let s1 := p.1
    let marker := p.2
    let e1 := e.addSymbol coeff marker
    if prio < Required then
      let q := s1.new .error
      let s2 := q.1
      let other := q.2
      let e2 := e1.addSymbol (-coeff) other
      ({ s2 with objective := s2.objective.addSymbol prio.val other },
        ⟨prio, marker, other⟩, e2)
    else (s1, ⟨prio, marker, InvalidSymbolID⟩, e1)
  | .eq =>
    if prio < Required then
      let p := s.new .error
      let s1 := p.1
      let marker := p.2
      let q := s1.new .error
      let s2 := q.1
      let other := q.2
      let e1 := (e.addSymbol (-1) marker).addSymbol 1 other
      let obj := (s2.objective.addSymbol prio.val marker).addSymbol prio.val other
      ({ s2 with objective := obj }, ⟨prio, marker, other⟩, e1)
    else
      let p := s.new .dummy
      (p.1, ⟨prio, p.2, InvalidSymbolID⟩, e.addSymbol 1 p.2)

/-- Record the tag and run primal optimisation against the objective (the
common tail of `AddConstraintWithPriority`). -/
def finishTag (ord : List SymbolID → List SymbolID) (fuel : Nat) (s : Solver)
    (tag : Tag) : Option (Solver × SymbolID × Option SolverError) :=
  let s1 := { s with tags := mapInsert s.tags tag.marker tag }
  match Solver.optimizeAgainst ord fuel .obj s1 with
  | none => none
  | some s2 => some (s2, tag.marker, none)

/-- `func (s *Solver) AddConstraintWithPriority(prio Priority, cell Constraint)
(SymbolID, error)`.  The result carries the post-call solver state, the
returned symbol and the returned error. -/
def Solver.addConstraintWithPriority (ord : List SymbolID → List SymbolID)
    (fuel : Nat) (s : Solver) (prio : Priority) (cell : Constraint) :
    Option (Solver × SymbolID × Option SolverError) :=
  match s.resolveTerms cell.expr.terms ⟨cell.expr.constant, []⟩ with
  | .error err => some (s, InvalidSymbolID, some err)
  | .ok resolved =>
    let a := s.augment prio cell.op resolved
    let s1 := a.1
    let tag := a.2.1
    let e1 := a.2.2
    let e2 := if e1.constant < 0 then e1.negate else e1
    match s1.findSubject ⟨cell.op, e2⟩ tag with
    | .error err => some (s1, InvalidSymbolID, some err)
    | .ok subject =>
      if subject = InvalidSymbolID then
        match s1.optimizeAgainstRow ord fuel ⟨cell.op, e2⟩ with
        | none => none
        | some (s2, some err) => some (s2, tag.marker, some err)
        | some (s2, none) => finishTag ord fuel s2 tag
      else
        let e3 := e2.solveFor subject
        let s2 := Solver.substitute ord s1 subject e3
        let s3 := { s2 with tabs := mapInsert s2.tabs subject ⟨cell.op, e3⟩ }
        finishTag ord fuel s3 tag

/-- `func (s *Solver) AddConstraint(cell Constraint)`: add at Required. -/
def Solver.addConstraint (ord : List SymbolID → List SymbolID) (fuel : Nat)
    (s : Solver) (cell : Constraint) : Option (Solver × SymbolID × Option SolverError) :=
  s.addConstraintWithPriority ord fuel Required cell

/-- Subtract an error symbol's priority weight from the objective when
removing a constraint (`if s.symbols[...] == Error { ... }`). -/
def objAdjust (s : Solver) (id : SymbolID) (prio : Priority) : Solver :=
  if s.symKind id = .error then
    match mapFind? s.tabs id with
    | some row => { s with objective := s.objective.addExpr (-prio.val) row.expr }
    | none => { s with objective := s.objective.addSymbol (-prio.val) id }
  else s

/-- Accumulator of `RemoveConstraint`'s exit-row scan: the running minima
`r1`/`r2` start at `math.MaxFloat64` (`none`), `third` is overwritten by every
external row that mentions the marker. -/
structure RemScan where
  r1 : Option ℚ
  r2 : Option ℚ
  first : SymbolID
  second : SymbolID
  third : SymbolID
deriving DecidableEq, Repr

/-- One iteration of `RemoveConstraint`'s `for symbol, row := range s.tabs`. -/
def remStep (s : Solver) (marker : SymbolID) (st : RemScan) (symbol : SymbolID) :
    RemScan :=
  match mapFind? s.tabs symbol with
  | none => st
  | some row =>
    match findTerm? row.expr.terms marker with
    | none => st
    | some coeff =>
      if zero coeff then st
      else if s.symKind symbol = .external then { st with third := symbol }
      else
        let r := -row.expr.constant / coeff
        if coeff < 0 && ltOpt r st.r1 then { st with r1 := some r, first := symbol }
        else if 0 ≤ coeff && ltOpt r st.r2 then { st with r2 := some r, second := symbol }
        else st

/-- `func (s *Solver) RemoveConstraint(marker SymbolID) error`. -/
def Solver.removeConstraint (ord : List SymbolID → List SymbolID) (fuel : Nat)
    (s : Solver) (marker : SymbolID) : Option (Solver × Option SolverError) :=
  match mapFind? s.tags marker with
  | none => some (s, some .badMarker)
  | some tag =>
    let s1 := { s with tags := mapErase s.tags tag.marker }
    let s2 := objAdjust s1 tag.marker tag.prio
    let s3 := objAdjust s2 tag.other tag.prio
    match mapFind? s3.tabs tag.marker with
    | some _ =>
      let s4 := { s3 with tabs := mapErase s3.tabs tag.marker,
                          symbols := mapErase s3.symbols tag.marker }
      match Solver.optimizeAgainst ord fuel .obj s4 with
      | none => none
      | some s5 => some (s5, none)
    | none =>
      let scan := (ord (keysOf s3.tabs)).foldl (remStep s3 tag.marker)
        ⟨none, none, InvalidSymbolID, InvalidSymbolID, InvalidSymbolID⟩
      let exit :=
        if scan.first ≠ InvalidSymbolID then scan.first
        else if scan.second ≠ InvalidSymbolID then scan.second
        else scan.third
      let row := (mapFind? s3.tabs exit).getD zeroConstraint
      let s4 := { s3 with tabs := mapErase s3.tabs exit,
                          symbols := mapErase s3.symbols exit }
      let row' := { row with expr := row.expr.solveForSymbols exit tag.marker }
      let s5 := Solver.substitute ord s4 tag.marker row'.expr
      match Solver.optimizeAgainst ord fuel .obj s5 with
      | none => none
      | some s6 => some (s6, none)

/-- `delta = value - previous_value` as computed by `Suggest` on a registered
edit variable (the stored value defaults to the zero `Edit` record). -/
def Solver.suggestDelta (s : Solver) (id : SymbolID) (val : ℚ) : ℚ :=
  val - ((mapFind? s.edits id).getD ⟨zeroTag, 0⟩).val

/-- Entering-symbol scan of `optimizeDualObjective`: over the dropped row's
terms with positive coefficient and non-dummy symbol that appear in the
objective, minimise `objective_coeff / row_coeff`. -/
def dualEntryScan (s : Solver) : List Term → Option ℚ → SymbolID → SymbolID
  | [], _, entry => entry
  | t :: ts, best, entry =>
    if decide (t.coeff ≤ 0) || s.symKind t.id = .dummy then
      dualEntryScan s ts best entry
    else
      match findTerm? s.objective.terms t.id with
      | none => dualEntryScan s ts best entry
      | some objCoeff =>
        let r := objCoeff / t.coeff
        if ltOpt r best then dualEntryScan s ts (some r) t.id
        else dualEntryScan s ts best entry

/-- `func (s *Solver) optimizeDualObjective()` (fuelled): pop infeasible
symbols and pivot their negative rows out. -/
def Solver.optimizeDualObjective (ord : List SymbolID → List SymbolID) :
    Nat → Solver → Option Solver
  | fuel, s =>
    match s.infeasible.getLast? with
    | none => some s
    | some exit =>
      match fuel with
      | 0 => none
      | fuel' + 1 =>
        let s1 := { s with infeasible := s.infeasible.dropLast }
        match mapFind? s1.tabs exit with
        | none => Solver.optimizeDualObjective ord fuel' s1
        | some row =>
          if 0 ≤ row.expr.constant then Solver.optimizeDualObjective ord fuel' s1
          else
            let s2 := { s1 with tabs := mapErase s1.tabs exit,
                                symbols := mapErase s1.symbols exit }
            let entry := dualEntryScan s2 row.expr.terms none InvalidSymbolID
            let row' := { row with expr := row.expr.solveForSymbols exit entry }
            let s3 := Solver.substitute ord s2 entry row'.expr
            Solver.optimizeDualObjective ord fuel'
              { s3 with tabs := mapInsert s3.tabs entry row' }

/-- One iteration of `Suggest`'s `for symbol := range s.tabs` loop: for a row
holding the marker with a non-epsilon coefficient `c`, add `c * delta` to its
constant and push the basic symbol when the new constant is negative and the
basic symbol is not external. -/
def suggestStep (marker : SymbolID) (delta : ℚ) (acc : Solver) (symbol : SymbolID) :
    Solver :=
  match mapFind? acc.tabs symbol with
  | none => acc
  | some row =>
    match findTerm? row.expr.terms marker with
    | none => acc
    | some coeff =>
      if zero coeff then acc
      else
        let row' := { row with expr :=
          { row.expr with constant := row.expr.constant + coeff * delta } }
        let acc' := { acc with tabs := mapInsert acc.tabs symbol row' }
        if 0 ≤ row'.expr.constant then acc'
        else if acc'.symKind symbol = .external then acc'
        else { acc' with infeasible := acc'.infeasible ++ [symbol] }

/-- The three propagation branches of `Suggest` (marker basic, other basic,
or scan every row containing the marker). -/
def suggestBranch (ord : List SymbolID → List SymbolID) (s : Solver) (tag : Tag)
    (delta : ℚ) : Solver :=
  match mapFind? s.tabs tag.marker with
  | some row =>
    let row' := { row with expr := { row.expr with constant := row.expr.constant - delta } }
    let s' := { s with tabs := mapInsert s.tabs tag.marker row' }
    if row'.expr.constant < 0 then { s' with infeasible := s'.infeasible ++ [tag.marker] }
    else s'
  | none =>
    match mapFind? s.tabs tag.other with
    | some row =>
      let row' := { row with expr := { row.expr with constant := row.expr.constant - delta } }
      let s' := { s with tabs := mapInsert s.tabs tag.other row' }
      if row'.expr.constant < 0 then { s' with infeasible := s'.infeasible ++ [tag.other] }
      else s'
    | none =>
      (ord (keysOf s.tabs)).foldl (suggestStep tag.marker delta) s

/-- `func (s *Solver) Suggest(id SymbolID, val float64) error`.  The deferred
`optimizeDualObjective` runs after every propagation branch; the not-editable
error is raised before the defer is installed. -/
def Solver.suggest (ord : List SymbolID → List SymbolID) (fuel : Nat) (s : Solver)
    (id : SymbolID) (val : ℚ) : Option (Solver × Option SolverError) :=
  match mapFind? s.edits id with
  | none => some (s, some (.notEdit id))
  | some ed =>
    let delta := s.suggestDelta id val
    let s1 := { s with edits := mapInsert s.edits id { ed with val := val } }
    let s2 := suggestBranch ord s1 ed.tag delta
    match Solver.optimizeDualObjective ord fuel s2 with
    | none => none
    | some s3 => some (s3, none)

/-- `func (s *Solver) Edit(id SymbolID, prio Priority) error`: reject Required,
add the stay constraint `id = 0`, record the edit with value `0`. -/
def Solver.edit (ord : List SymbolID → List SymbolID) (fuel : Nat) (s : Solver)
    (id : SymbolID) (prio : Priority) : Option (Solver × Option SolverError) :=
  if prio = Required then some (s, some .badPriority)
  else
    let constraint : Constraint := ⟨.eq, ⟨0, [⟨1, id⟩]⟩⟩
    match s.addConstraintWithPriority ord fuel prio constraint with
    | none => none
    | some (s1, marker, someOutcome) =>
      match someOutcome with
      | some err => some (s1, some err)
      | none =>
        let tag := (mapFind? s1.tags marker).getD zeroTag
        some ({ s1 with edits := mapInsert s1.edits id ⟨tag, 0⟩ }, none)

/-- A public solver operation (the interface of section 6 of the spec). -/
inductive SolverOp
  | newVar
  | addC (prio : Priority) (cell : Constraint)
  | removeC (marker : SymbolID)
  | editV (id : SymbolID) (prio : Priority)
  | suggestV (id : SymbolID) (v : ℚ)
deriving DecidableEq, Repr

/-- Run one public operation, keeping the post-call state whether or not the
operation reported an error (`addC Required` is `AddConstraint`). -/
def runOp (ord : List SymbolID → List SymbolID) (fuel : Nat) (s : Solver) :
    SolverOp → Option Solver
  | .newVar => some s.newExternal.1
  | .addC prio cell => (s.addConstraintWithPriority ord fuel prio cell).map (fun r => r.1)
  | .removeC marker => (s.removeConstraint ord fuel marker).map (fun r => r.1)
  | .editV id prio => (s.edit ord fuel id prio).map (fun r => r.1)
  | .suggestV id v => (s.suggest ord fuel id v).map (fun r => r.1)

/-- Run a sequence of public operations. -/
def runOps (ord : List SymbolID → List SymbolID) (fuel : Nat) :
    List SolverOp → Solver → Option Solver
  | [], s => some s
  | op :: ops, s =>
    match runOp ord fuel s op with
    | none => none
    | some s' => runOps ord fuel ops s'

/-- Insertion-order map iteration (one legal Go map range order). -/
def ordId : List SymbolID → List SymbolID := fun l => l

/-- Reversed map iteration (another legal Go map range order). -/
def ordRev : List SymbolID → List SymbolID := fun l => l.reverse

/-- The midpoint scenario: fresh solver, three external symbols `l`, `m`, `r`;
add `r + l - 2m = 0`, `r - l ≥ 100` and `l ≥ 0` at Required priority via
`AddConstraint`; report the three returned errors and `Val` of `l`, `m`, `r`. -/
def midpointRun : Option (List (Option SolverError) × List ℚ) := do
  let s := newSolver
  let (s, l) := s.newExternal
  let (s, m) := s.newExternal
  let (s, r) := s.newExternal
  let (s, _, e1) ← s.addConstraint ordId 50 ⟨.eq, ⟨0, [⟨1, r⟩, ⟨1, l⟩, ⟨-2, m⟩]⟩⟩
  let (s, _, e2) ← s.addConstraint ordId 50 ⟨.gte, ⟨-100, [⟨1, r⟩, ⟨-1, l⟩]⟩⟩
  let (s, _, e3) ← s.addConstraint ordId 50 ⟨.gte, ⟨0, [⟨1, l⟩]⟩⟩
  return ([e1, e2, e3], [s.val l, s.val m, s.val r])

/-- Subject selection as worded by the spec (section 4.3): (1) the first
external term; (2) the marker when restricted with a negative coefficient;
(3) the other likewise; (4) when every term is a dummy, unsatisfiable unless
the constant is within epsilon of zero, in which case the marker; (5)
otherwise no subject. -/
def findSubjectSpec (s : Solver) (cell : Constraint) (tag : Tag) :
    Except SolverError SymbolID :=
  match cell.expr.terms.find? (fun t => s.symKind t.id == Symbol.external) with
  | some t => .ok t.id
  | none =>
    if (s.symKind tag.marker).restricted && negCoeff cell.expr tag.marker then
      .ok tag.marker
    else if (s.symKind tag.other).restricted && negCoeff cell.expr tag.other then
      .ok tag.other
    else if cell.expr.terms.all (fun t => s.symKind t.id == Symbol.dummy) then
      if zero cell.expr.constant then .ok tag.marker else .error .dummyUnsat
    else .ok InvalidSymbolID

/-- Errors that `AddConstraintWithPriority` can return: an unknown symbol from
the resolve loop, the dummy-row unsatisfiability from `findSubject`, or
`unsatisfiable` from the artificial-variable phase. -/
def isAddConstraintErr : SolverError → Prop
  | .unknownSymbol _ => True
  | .dummyUnsat => True
  | .unsat => True
  | _ => False

/-- A fresh solver holding one external symbol (id `0`). -/
def oneVarSolver : Solver := newSolver.newExternal.1

/-- The required equality `1 = 0` (constant `1`, no terms): its augmented row
holds only the fresh dummy marker, so `findSubject` reports it unsatisfiable. -/
def unsatFreeCell : Constraint := ⟨.eq, ⟨1, []⟩⟩

/-- The state `addConstraint` leaves behind after rejecting `unsatFreeCell`:
the dummy marker is still registered and the counter advanced. -/
def c4After : Solver :=
  { counter := 2, symbols := [(0, .external), (1, .dummy)], edits := [], tabs := [],
    tags := [], infeasible := [], objective := ⟨0, []⟩, artificial := ⟨0, []⟩ }

/-- A solver whose single external symbol `0` is already registered for
editing (at Strong priority). -/
def c10Base : Solver := ((oneVarSolver.edit ordId 20 0 Strong).getD (newSolver, none)).1

/-- The outcome of re-editing symbol `0` (now at Medium priority). -/
def c10Res : Solver × Option SolverError :=
  (c10Base.edit ordId 40 0 Medium).getD (newSolver, none)

/-- Suggest's propagation loop as worded by the spec (section 4.7): for
*every* row containing the marker with coefficient `c`, add `c * delta` to
the constant, pushing the basic symbol when the result is negative and the
basic symbol is not external — with no epsilon guard on `c`. -/
def suggestSpecStep (marker : SymbolID) (delta : ℚ) (acc : Solver) (symbol : SymbolID) :
    Solver :=
  match mapFind? acc.tabs symbol with
  | none => acc
  | some row =>
    match findTerm? row.expr.terms marker with
    | none => acc
    | some coeff =>
      let row' := { row with expr :=
        { row.expr with constant := row.expr.constant + coeff * delta } }
      let acc' := { acc with tabs := mapInsert acc.tabs symbol row' }
      if 0 ≤ row'.expr.constant then acc'
      else if acc'.symKind symbol = .external then acc'
      else { acc' with infeasible := acc'.infeasible ++ [symbol] }

/-- The spec wording of Suggest's three propagation branches. -/
def suggestSpecBranch (ord : List SymbolID → List SymbolID) (s : Solver) (tag : Tag)
    (delta : ℚ) : Solver :=
  match mapFind? s.tabs tag.marker with
  | some row =>
    let row' := { row with expr := { row.expr with constant := row.expr.constant - delta } }
    let s' := { s with tabs := mapInsert s.tabs tag.marker row' }
    if row'.expr.constant < 0 then { s' with infeasible := s'.infeasible ++ [tag.marker] }
    else s'
  | none =>
    match mapFind? s.tabs tag.other with
    | some row =>
      let row' := { row with expr := { row.expr with constant := row.expr.constant - delta } }
      let s' := { s with tabs := mapInsert s.tabs tag.other row' }
      if row'.expr.constant < 0 then { s' with infeasible := s'.infeasible ++ [tag.other] }
      else s'
    | none =>
      (ord (keysOf s.tabs)).foldl (suggestSpecStep tag.marker delta) s

/-- `suggest` as worded by the spec: NotEdit on unregistered symbols,
`delta = value - previous_value`, store the value, propagate through the
three branches (without the epsilon guard), then run dual optimisation. -/
def Solver.suggestSpec (ord : List SymbolID → List SymbolID) (fuel : Nat) (s : Solver)
    (id : SymbolID) (val : ℚ) : Option (Solver × Option SolverError) :=
  match mapFind? s.edits id with
  | none => some (s, some (.notEdit id))
  | some ed =>
    let delta := val - ed.val
    let s1 := { s with edits := mapInsert s.edits id { ed with val := val } }
    let s2 := suggestSpecBranch ord s1 ed.tag delta
    match Solver.optimizeDualObjective ord fuel s2 with
    | none => none
    | some s3 => some (s3, none)

/-- No stored row holds a term whose coefficient is within epsilon of zero
(the spec's no-zero-coefficient-ghosts invariant, restricted to the tableau). -/
def NoGhost (s : Solver) : Prop :=
  ∀ k row, mapFind? s.tabs k = some row → ∀ t ∈ row.expr.terms, zero t.coeff = false

/-- A solver whose symbol `0` is registered for editing while the tableau is
empty (both edit markers are non-basic). -/
def c3Wit : Solver := { oneVarSolver with edits := [(0, ⟨⟨1, 5, 6⟩, 0⟩)] }

/-- A state holding a row that contains the edit marker `9` with the
sub-epsilon coefficient `1/10^9`: the Suggest loop skips it, the spec's
wording does not. -/
def c3Ghost : Solver :=
  { counter := 11,
    symbols := [(0, .external), (3, .slack), (9, .error), (10, .error)],
    edits := [(0, ⟨⟨1, 9, 10⟩, 0⟩)],
    tabs := [(3, ⟨.eq, ⟨5, [⟨1 / 1000000000, 9⟩]⟩⟩)],
    tags := [], infeasible := [], objective := ⟨0, []⟩, artificial := ⟨0, []⟩ }

/-- A state where suggesting twice differs from suggesting once: the edit's
"other" symbol `2` is a basic row with negative constant whose basic symbol is
missing from the registry, so the first `suggest` (which takes the
marker-basic branch) never repairs it, while the second `suggest` (whose
marker is no longer basic after the first call's dual pivot) pushes it and
pivots again. -/
def c6State : Solver :=
  { counter := 6,
    symbols := [(0, .external), (1, .slack), (3, .slack), (4, .external), (5, .slack)],
    edits := [(0, ⟨⟨1, 1, 2⟩, 5⟩)],
    tabs := [(1, ⟨.eq, ⟨-3, [⟨1, 5⟩]⟩⟩), (2, ⟨.eq, ⟨-7, [⟨1, 3⟩]⟩⟩),
      (4, ⟨.eq, ⟨10, [⟨1, 3⟩]⟩⟩)],
    tags := [], infeasible := [],
    objective := ⟨0, [⟨1, 5⟩, ⟨1, 3⟩]⟩, artificial := ⟨0, []⟩ }

/-- A dual-feasible state with symbol `0` registered for editing at stored
value `7` and an empty tableau. -/
def c6Wit : Solver := { oneVarSolver with edits := [(0, ⟨⟨1, 5, 6⟩, 7⟩)] }

/-- `e` mentions no symbol from the key set `K`. -/
def Avoid (K : List SymbolID) (e : Expr) : Prop := ∀ t ∈ e.terms, t.id ∉ K

/-- The expression holds at most one term per symbol. -/
def ExprOK (e : Expr) : Prop := (e.terms.map (fun t => t.id)).Nodup

/-- Every symbol mentioned by `e` is below the allocation counter. -/
def IdsBelow (n : SymbolID) (e : Expr) : Prop := ∀ t ∈ e.terms, t.id < n

/-- The solver's structural invariant: a nonnegative counter bounding every
allocated id (and every tagged marker), tableau keys without duplicates, and
stored expressions (rows, objective, artificial) that hold at most one term
per symbol, mention no basic symbol, and mention only allocated ids. -/
structure WF (s : Solver) : Prop where
  counterPos : 0 ≤ s.counter
  tabsNodup : (keysOf s.tabs).Nodup
  tabsBound : ∀ k ∈ keysOf s.tabs, k < s.counter
  symsBound : ∀ k ∈ keysOf s.symbols, k < s.counter
  tagsBound : ∀ p ∈ s.tags, p.2.marker < s.counter ∧ p.2.other < s.counter
  rows : ∀ k row, mapFind? s.tabs k = some row →
    ExprOK row.expr ∧ Avoid (keysOf s.tabs) row.expr ∧ IdsBelow s.counter row.expr
  obj : ExprOK s.objective ∧ Avoid (keysOf s.tabs) s.objective ∧
    IdsBelow s.counter s.objective
  art : ExprOK s.artificial ∧ Avoid (keysOf s.tabs) s.artificial ∧
    IdsBelow s.counter s.artificial

/-- The iteration-order oracle visits every key of the list it permutes
(what a Go `range` over a map guarantees regardless of order). -/
def Covers (ord : List SymbolID → List SymbolID) : Prop :=
  ∀ (l : List SymbolID) (x : SymbolID), x ∈ l → x ∈ ord l

/-- Operation sequence exercising every public operation (two variables,
a `≥` constraint, an edit, a suggest, removal of the constraint's marker,
another suggest), used to instantiate the invariant claims. -/
def c8Ops : List SolverOp :=
  [.newVar, .newVar,
   .addC Required ⟨.gte, ⟨-10, [⟨1, 0⟩, ⟨1, 1⟩]⟩⟩,
   .editV 1 Medium,
   .suggestV 1 4,
   .removeC 2,
   .suggestV 1 6]

/-- The state `c8Ops` reaches from the fresh solver. -/
def c8State : Solver := (runOps ordId 40 c8Ops newSolver).getD newSolver

/-- A single Required equality `1e9·x + y = 0`: solving it for `x` rescales
the row by `-1e-9`, storing coefficients within epsilon of zero. -/
def c9Ops : List SolverOp :=
  [.newVar, .newVar, .addC Required ⟨.eq, ⟨0, [⟨1000000000, 0⟩, ⟨1, 1⟩]⟩⟩]

/-- The state `c9Ops` reaches from the fresh solver. -/
def c9State : Solver := (runOps ordId 40 c9Ops newSolver).getD newSolver

/-- Two externals, `x + y ≥ 10` and `y = x` (both Required), then removal of
the equality by its marker: the remove scan's `third` slot keeps the *last*
external row that mentions the marker, so the leaving row — and the final
values — depend on the tableau iteration order. -/
def c7Ops : List SolverOp :=
  [.newVar, .newVar,
   .addC Required ⟨.gte, ⟨-10, [⟨1, 0⟩, ⟨1, 1⟩]⟩⟩,
   .addC Required ⟨.eq, ⟨0, [⟨1, 1⟩, ⟨-1, 0⟩]⟩⟩,
   .removeC 3]

end Casso

namespace Casso

theorem externalScan_eq_find? (s : Solver) (ts : List Term) :
    externalScan s ts =
      (ts.find? (fun t => s.symKind t.id == Symbol.external)).map (fun t => t.id) := by
  induction ts with
  | nil => rfl
  | cons t ts ih =>
    by_cases h : s.symKind t.id = .external
    · simp [externalScan, List.find?, h]
    · simp only [externalScan, if_neg h, ih, List.find?]
      have : (s.symKind t.id == Symbol.external) = false := by
        simpa using h
      rw [this]

theorem dummyScan_eq_all (s : Solver) (ts : List Term) :
    dummyScan s ts = ts.all (fun t => s.symKind t.id == Symbol.dummy) := by
  induction ts with
  | nil => rfl
  | cons t ts ih =>
    by_cases h : s.symKind t.id = .dummy
    · simp [dummyScan, h, ih, List.all_cons]
    · simp [dummyScan, h, List.all_cons]

/-- C1: on a fresh solver with external symbols `l`, `m`, `r`, adding
`r + l - 2m = 0`, `r - l ≥ 100` and `l ≥ 0` at Required priority succeeds
(each `add_constraint` returns no error), and afterwards `value_of` returns
`0` for `l`, `50` for `m` and `100` for `r`. -/
theorem midpoint_scenario :
    midpointRun = some ([none, none, none], [0, 50, 100]) := by
  with_unfolding_all decide

/-- C2: `findSubject` applies exactly the spec's subject-selection rules, in
order: first external term; restricted marker with negative coefficient;
restricted other with negative coefficient; all-dummy row (unsatisfiable on a
non-epsilon constant, marker otherwise); otherwise no subject, which sends
`AddConstraintWithPriority` into the artificial-variable phase. -/
theorem findSubject_follows_spec (s : Solver) (cell : Constraint) (tag : Tag) :
    s.findSubject cell tag = findSubjectSpec s cell tag := by
  unfold Solver.findSubject findSubjectSpec
  rw [externalScan_eq_find?, dummyScan_eq_all]
  cases h : cell.expr.terms.find? (fun t => s.symKind t.id == Symbol.external) with
  | none =>
    simp only [Option.map_none]
    cases hall : cell.expr.terms.all (fun t => s.symKind t.id == Symbol.dummy) <;>
      cases hz : zero cell.expr.constant <;> simp [hall, hz]
  | some t => simp

theorem resolveTerms_error (s : Solver) (ts : List Term) (acc : Expr) (e : SolverError)
    (h : s.resolveTerms ts acc = .error e) : ∃ id, e = .unknownSymbol id := by
  induction ts generalizing acc with
  | nil => simp [Solver.resolveTerms] at h
  | cons t ts ih =>
    unfold Solver.resolveTerms at h
    split at h
    · exact ih _ h
    · split at h
      · cases h
        exact ⟨t.id, rfl⟩
      · split at h
        · exact ih _ h
        · exact ih _ h

theorem findSubject_error (s : Solver) (cell : Constraint) (tag : Tag) (e : SolverError)
    (h : s.findSubject cell tag = .error e) : e = .dummyUnsat := by
  unfold Solver.findSubject at h
  split at h
  · cases h
  · split at h
    · cases h
    · split at h
      · cases h
      · split at h
        · cases h
        · split at h
          · cases h
            rfl
          · cases h

theorem scrubFinish_error (ord : List SymbolID → List SymbolID) (s : Solver)
    (id : SymbolID) (success : Bool) (e : SolverError)
    (h : (scrubFinish ord s id success).2 = some e) : e = .unsat := by
  unfold scrubFinish at h
  split at h
  · cases h
  · cases h
    rfl

theorem optimizeAgainstRow_error (ord : List SymbolID → List SymbolID) (fuel : Nat)
    (s : Solver) (row : Constraint) (s' : Solver) (e : SolverError)
    (h : s.optimizeAgainstRow ord fuel row = some (s', some e)) : e = .unsat := by
  unfold Solver.optimizeAgainstRow at h
  dsimp only at h
  split at h
  · cases h
  · split at h
    · split at h
      · cases h
      · split at h
        · cases h
          rfl
        · injection h with h'
          exact scrubFinish_error _ _ _ _ _ (congrArg Prod.snd h')
    · injection h with h'
      exact scrubFinish_error _ _ _ _ _ (congrArg Prod.snd h')

theorem finishTag_snd (ord : List SymbolID → List SymbolID) (fuel : Nat) (s : Solver)
    (tag : Tag) (r : Solver × SymbolID × Option SolverError)
    (h : finishTag ord fuel s tag = some r) : r.2.2 = none := by
  unfold finishTag at h
  dsimp only at h
  split at h
  · cases h
  · cases h
    rfl

theorem addConstraint_error_shape (ord : List SymbolID → List SymbolID) (fuel : Nat)
    (s : Solver) (p : Priority) (c : Constraint) (r : Solver × SymbolID × Option SolverError)
    (h : s.addConstraintWithPriority ord fuel p c = some r) (e : SolverError)
    (he : r.2.2 = some e) : isAddConstraintErr e := by
  unfold Solver.addConstraintWithPriority at h
  split at h
  · rename_i err heq
    cases h
    cases he
    obtain ⟨id, hid⟩ := resolveTerms_error _ _ _ _ heq
    subst hid
    trivial
  · rename_i resolved heq
    dsimp only at h
    split at h
    · rename_i err heq2
      cases h
      cases he
      have := findSubject_error _ _ _ _ heq2
      subst this
      trivial
    · rename_i subject heq2
      split at h
      · split at h
        · cases h
        · rename_i s2 err heq4
          cases h
          cases he
          have := optimizeAgainstRow_error _ _ _ _ _ _ heq4
          subst this
          trivial
        · rename_i s2 heq4
          rw [finishTag_snd _ _ _ _ _ h] at he
          cases he
      · rw [finishTag_snd _ _ _ _ _ h] at he
        cases he

theorem augment_eq_required (s : Solver) (e : Expr) :
    s.augment Required .eq e =
      ((s.new .dummy).1, ⟨Required, (s.new .dummy).2, InvalidSymbolID⟩,
        e.addSymbol 1 (s.new .dummy).2) := by
  unfold Solver.augment
  norm_num [Required]

/-- C4 counterexample: adding the required equality `1 = 0` (a dummy-only row
with non-zero constant) to a solver holding one external symbol returns the
dummy-row Unsatisfiable error, yet the observable state after the call is not
the state from before the call: the symbol registry still holds the freshly
created dummy marker and the counter stays advanced. -/
theorem addConstraint_unsat_not_atomic :
    (oneVarSolver.addConstraint ordId 20 unsatFreeCell).map
        (fun r => (r.2.2, decide (r.1.symbols = oneVarSolver.symbols),
          decide (r.1.counter = oneVarSolver.counter)))
      = some (some SolverError.dummyUnsat, false, false) := by
  with_unfolding_all decide

/-- C4 amended: when `add_constraint` fails with the dummy-only-row
Unsatisfiable error on a required equality, the tableau rows, objective
expression, tag table, edit table, infeasible list and artificial expression
are exactly as before the call, but the freshly allocated dummy marker remains
in the symbol registry and the counter remains incremented.  (A failure of the
artificial-variable phase leaves still more behind: the new marker symbols,
their objective contributions and the re-pivoted rows.) -/
theorem addConstraint_dummyUnsat_state (ord : List SymbolID → List SymbolID)
    (fuel : Nat) (s : Solver) (c : Constraint)
    (r : Solver × SymbolID × Option SolverError) (hop : c.op = .eq)
    (h : s.addConstraintWithPriority ord fuel Required c = some r)
    (he : r.2.2 = some SolverError.dummyUnsat) :
    r.1.tabs = s.tabs ∧ r.1.objective = s.objective ∧ r.1.tags = s.tags ∧
      r.1.edits = s.edits ∧ r.1.infeasible = s.infeasible ∧
      r.1.artificial = s.artificial ∧
      r.1.symbols = mapInsert s.symbols s.counter Symbol.dummy ∧
      r.1.counter = s.counter + 1 := by
  unfold Solver.addConstraintWithPriority at h
  split at h
  · rename_i err heq
    cases h
    cases he
    obtain ⟨id, hid⟩ := resolveTerms_error _ _ _ _ heq
    cases hid
  · rename_i resolved heq
    rw [hop] at h
    rw [augment_eq_required] at h
    dsimp only at h
    split at h
    · rename_i err heq2
      cases h
      simp [Solver.new]
    · rename_i subject heq2
      split at h
      · split at h
        · cases h
        · rename_i s2 err heq4
          cases h
          cases he
          have := optimizeAgainstRow_error _ _ _ _ _ _ heq4
          cases this
        · rename_i s2 heq4
          rw [finishTag_snd _ _ _ _ _ h] at he
          cases he
      · rw [finishTag_snd _ _ _ _ _ h] at he
        cases he

/-- C5 counterexample: `Edit` with priority `Required + 1` (which is
`≥ Required`) is not rejected: on a solver holding the edited symbol it
returns no error at all, where the claim demands a BadPriority error. -/
theorem edit_over_required_not_rejected :
    (oneVarSolver.edit ordId 20 0 (Required + 1)).map (fun r => r.2) = some none := by
  with_unfolding_all decide

/-- C5 amended: the only priority validation in `Edit` is the equality test
`prio == Required`: for every nonnegative priority, `Edit` returns BadPriority
exactly when the priority equals Required.  (Negative priorities are not
rejected either; in Go they would panic on the `PriorityTable` lookup instead
of returning BadPriority, which is outside this model.) -/
theorem edit_badPriority_iff (ord : List SymbolID → List SymbolID) (fuel : Nat)
    (s : Solver) (id : SymbolID) (p : Priority) (hp : 0 ≤ p)
    (r : Solver × Option SolverError) (h : s.edit ord fuel id p = some r) :
    r.2 = some SolverError.badPriority ↔ p = Required := by
  constructor
  · intro hr
    by_contra hne
    unfold Solver.edit at h
    rw [if_neg hne] at h
    dsimp only at h
    split at h
    · cases h
    · rename_i s1 marker outcome heq
      split at h
      · rename_i err
        cases h
        cases hr
        have := addConstraint_error_shape _ _ _ _ _ _ heq SolverError.badPriority rfl
        simp [isAddConstraintErr] at this
      · cases h
        cases hr
  · intro hp'
    subst hp'
    unfold Solver.edit at h
    rw [if_pos rfl] at h
    cases h
    rfl

theorem edit_badPriority_iff_w :
    (0 ≤ Required) ∧
      (newSolver.edit ordId 5 0 Required = some (newSolver, some SolverError.badPriority)) ∧
      ((newSolver, some SolverError.badPriority) : Solver × Option SolverError).2
        = some SolverError.badPriority :=
  ⟨by decide, by with_unfolding_all decide,
    (edit_badPriority_iff ordId 5 newSolver 0 Required (by decide) _
      (by with_unfolding_all decide)).mpr rfl⟩

theorem addConstraint_dummyUnsat_state_w :
    c4After.tabs = oneVarSolver.tabs ∧ c4After.objective = oneVarSolver.objective ∧
      c4After.tags = oneVarSolver.tags ∧ c4After.edits = oneVarSolver.edits ∧
      c4After.infeasible = oneVarSolver.infeasible ∧
      c4After.artificial = oneVarSolver.artificial ∧
      c4After.symbols = mapInsert oneVarSolver.symbols oneVarSolver.counter Symbol.dummy ∧
      c4After.counter = oneVarSolver.counter + 1 :=
  addConstraint_dummyUnsat_state ordId 20 oneVarSolver unsatFreeCell
    (c4After, InvalidSymbolID, some SolverError.dummyUnsat) rfl
    (by with_unfolding_all decide) rfl

theorem substStep_parts (id : SymbolID) (e : Expr) (s : Solver) (symbol : SymbolID) :
    (substStep id e s symbol).tags = s.tags ∧ (substStep id e s symbol).edits = s.edits ∧
      (substStep id e s symbol).counter = s.counter := by
  unfold substStep
  split
  · exact ⟨rfl, rfl, rfl⟩
  · dsimp only
    split
    · exact ⟨rfl, rfl, rfl⟩
    · exact ⟨rfl, rfl, rfl⟩

theorem foldl_substStep_parts (id : SymbolID) (e : Expr) (l : List SymbolID) (s : Solver) :
    ((l.foldl (substStep id e) s).tags = s.tags ∧
      (l.foldl (substStep id e) s).edits = s.edits ∧
      (l.foldl (substStep id e) s).counter = s.counter) := by
  induction l generalizing s with
  | nil => exact ⟨rfl, rfl, rfl⟩
  | cons x xs ih =>
    simp only [List.foldl_cons]
    obtain ⟨h1, h2, h3⟩ := ih (substStep id e s x)
    obtain ⟨g1, g2, g3⟩ := substStep_parts id e s x
    exact ⟨h1.trans g1, h2.trans g2, h3.trans g3⟩

theorem substitute_parts (ord : List SymbolID → List SymbolID) (s : Solver)
    (id : SymbolID) (e : Expr) :
    (Solver.substitute ord s id e).tags = s.tags ∧
      (Solver.substitute ord s id e).edits = s.edits ∧
      (Solver.substitute ord s id e).counter = s.counter := by
  unfold Solver.substitute
  exact foldl_substStep_parts id e (ord (keysOf s.tabs)) s

theorem pivotStep_parts (ord : List SymbolID → List SymbolID) (s : Solver)
    (entry : SymbolID) :
    (pivotStep ord s entry).tags = s.tags ∧ (pivotStep ord s entry).edits = s.edits ∧
      (pivotStep ord s entry).counter = s.counter := by
  unfold pivotStep
  dsimp only
  exact substitute_parts ord _ entry _

theorem optimizeAgainst_parts (ord : List SymbolID → List SymbolID) :
    ∀ (fuel : Nat) (tgt : Target) (s s' : Solver),
      Solver.optimizeAgainst ord fuel tgt s = some s' →
      s'.tags = s.tags ∧ s'.edits = s.edits ∧ s'.counter = s.counter := by
  intro fuel
  induction fuel with
  | zero => intro tgt s s' h; cases h
  | succ n ih =>
    intro tgt s s' h
    unfold Solver.optimizeAgainst at h
    dsimp only at h
    split at h
    · cases h
      exact ⟨rfl, rfl, rfl⟩
    · obtain ⟨h1, h2, h3⟩ := ih _ _ _ h
      obtain ⟨g1, g2, g3⟩ := pivotStep_parts ord s _
      exact ⟨h1.trans g1, h2.trans g2, h3.trans g3⟩

theorem scrubStep_parts (id : SymbolID) (s : Solver) (symbol : SymbolID) :
    (scrubStep id s symbol).tags = s.tags ∧ (scrubStep id s symbol).edits = s.edits := by
  unfold scrubStep
  split
  · exact ⟨rfl, rfl⟩
  · split
    · exact ⟨rfl, rfl⟩
    · exact ⟨rfl, rfl⟩

theorem foldl_scrubStep_parts (id : SymbolID) (l : List SymbolID) (s : Solver) :
    (l.foldl (scrubStep id) s).tags = s.tags ∧ (l.foldl (scrubStep id) s).edits = s.edits := by
  induction l generalizing s with
  | nil => exact ⟨rfl, rfl⟩
  | cons x xs ih =>
    simp only [List.foldl_cons]
    obtain ⟨h1, h2⟩ := ih (scrubStep id s x)
    obtain ⟨g1, g2⟩ := scrubStep_parts id s x
    exact ⟨h1.trans g1, h2.trans g2⟩

theorem scrubFinish_parts (ord : List SymbolID → List SymbolID) (s : Solver)
    (id : SymbolID) (success : Bool) :
    (scrubFinish ord s id success).1.tags = s.tags ∧
      (scrubFinish ord s id success).1.edits = s.edits := by
  unfold scrubFinish
  dsimp only
  obtain ⟨h1, h2⟩ := foldl_scrubStep_parts id (ord (keysOf s.tabs)) s
  split
  · split
    · exact ⟨h1, h2⟩
    · exact ⟨h1, h2⟩
  · split
    · exact ⟨h1, h2⟩
    · exact ⟨h1, h2⟩

theorem optimizeAgainstRow_parts (ord : List SymbolID → List SymbolID) (fuel : Nat)
    (s : Solver) (row : Constraint) (res : Solver × Option SolverError)
    (h : s.optimizeAgainstRow ord fuel row = some res) :
    res.1.tags = s.tags ∧ res.1.edits = s.edits := by
  unfold Solver.optimizeAgainstRow at h
  dsimp only at h
  split at h
  · cases h
  · rename_i s3 heq
    obtain ⟨o1, o2, _⟩ := optimizeAgainst_parts ord _ _ _ _ heq
    split at h
    · split at h
      · cases h
        exact ⟨o1, o2⟩
      · split at h
        · cases h
          exact ⟨o1, o2⟩
        · cases h
          obtain ⟨f1, f2⟩ := scrubFinish_parts ord _ _ _
          obtain ⟨u1, u2, _⟩ := substitute_parts ord _ _ _
          exact ⟨f1.trans (u1.trans o1), f2.trans (u2.trans o2)⟩
    · cases h
      obtain ⟨f1, f2⟩ := scrubFinish_parts ord _ _ _
      exact ⟨f1.trans o1, f2.trans o2⟩

theorem augment_parts (s : Solver) (p : Priority) (op : Op) (e : Expr) :
    (s.augment p op e).1.tags = s.tags ∧ (s.augment p op e).1.edits = s.edits ∧
      (s.augment p op e).2.1.prio = p ∧ (s.augment p op e).2.1.marker = s.counter := by
  unfold Solver.augment
  rcases op with _ | _ | _ <;> dsimp only <;> split <;>
    exact ⟨rfl, rfl, rfl, rfl⟩

theorem mapFind?_mapInsert_self {α : Type} (m : List (SymbolID × α)) (k : SymbolID)
    (v : α) : mapFind? (mapInsert m k v) k = some v := by
  induction m with
  | nil => simp [mapInsert, mapFind?]
  | cons e rest ih =>
    by_cases h : e.1 = k
    · simp [mapInsert, mapFind?, h]
    · simp [mapInsert, mapFind?, h, ih]

theorem addConstraint_success_state (ord : List SymbolID → List SymbolID) (fuel : Nat)
    (s : Solver) (p : Priority) (c : Constraint) (s1 : Solver) (marker : SymbolID)
    (h : s.addConstraintWithPriority ord fuel p c = some (s1, marker, none)) :
    marker = s.counter ∧ s1.edits = s.edits ∧
      ∃ tag : Tag, tag.prio = p ∧ tag.marker = marker ∧
        mapFind? s1.tags marker = some tag := by
  unfold Solver.addConstraintWithPriority at h
  split at h
  · cases h
  · rename_i resolved heq
    dsimp only at h
    obtain ⟨a1, a2, a3, a4⟩ := augment_parts s p c.op resolved
    split at h
    · cases h
    · rename_i subject heq2
      have finish : ∀ s2 : Solver,
          finishTag ord fuel s2 (s.augment p c.op resolved).2.1 = some (s1, marker, none) →
          s2.edits = s.edits →
          s2.tags = s.tags →
          marker = s.counter ∧ s1.edits = s.edits ∧
            ∃ tag : Tag, tag.prio = p ∧ tag.marker = marker ∧
              mapFind? s1.tags marker = some tag := by
        intro s2 hf he2 ht2
        unfold finishTag at hf
        dsimp only at hf
        split at hf
        · cases hf
        · rename_i s3 heq3
          cases hf
          obtain ⟨o1, o2, _⟩ := optimizeAgainst_parts ord _ _ _ _ heq3
          refine ⟨a4, o2.trans he2, (s.augment p c.op resolved).2.1, a3, rfl, ?_⟩
          rw [o1]
          dsimp only
          rw [a4]
          exact mapFind?_mapInsert_self _ _ _
      split at h
      · split at h
        · cases h
        · cases h
        · rename_i s2 heq4
          obtain ⟨r1, r2⟩ := optimizeAgainstRow_parts ord fuel _ _ _ heq4
          exact finish s2 h (r2.trans a2) (r1.trans a1)
      · obtain ⟨u1, u2, _⟩ := substitute_parts ord (s.augment p c.op resolved).1 subject _
        exact finish _ h (u2.trans a2) (u1.trans a1)

/-- C10: `Edit` performs no already-editable check: on a symbol already
registered for editing with a valid priority it is not rejected (never
BadPriority, never NotEdit), and on success it installs a second stay
constraint — a freshly tagged marker (the next counter value) at the new
priority — and overwrites the stored edit record with suggested value `0`, so
the next `Suggest` computes its delta as `v - 0`. -/
theorem edit_reedit_overwrites (ord : List SymbolID → List SymbolID) (fuel : Nat)
    (s : Solver) (id : SymbolID) (p : Priority) (hp : p ≠ Required)
    (_hreg : (mapFind? s.edits id).isSome) (r : Solver × Option SolverError)
    (h : s.edit ord fuel id p = some r) :
    r.2 ≠ some SolverError.badPriority ∧
      (∀ m, r.2 ≠ some (SolverError.notEdit m)) ∧
      (r.2 = none →
        ∃ tag : Tag, mapFind? r.1.edits id = some ⟨tag, 0⟩ ∧
          tag.prio = p ∧ tag.marker = s.counter ∧
          mapFind? r.1.tags tag.marker = some tag ∧
          ∀ v : ℚ, r.1.suggestDelta id v = v) := by
  unfold Solver.edit at h
  rw [if_neg hp] at h
  dsimp only at h
  split at h
  · cases h
  · rename_i s1 marker outcome heq
    split at h
    · rename_i err
      cases h
      have shape := addConstraint_error_shape _ _ _ _ _ _ heq err rfl
      refine ⟨?_, ?_, ?_⟩
      · intro hc
        cases hc
        simp [isAddConstraintErr] at shape
      · intro m hc
        cases hc
        simp [isAddConstraintErr] at shape
      · intro hc
        cases hc
    · cases h
      obtain ⟨hm, _, tag, htp, htm, htf⟩ := addConstraint_success_state ord fuel s p _ s1 marker heq
      refine ⟨by simp, by simp, fun _ => ⟨tag, ?_, htp, hm ▸ htm, ?_, ?_⟩⟩
      · dsimp only
        have : (mapFind? s1.tags marker).getD zeroTag = tag := by rw [htf]; rfl
        rw [this]
        exact mapFind?_mapInsert_self _ _ _
      · dsimp only
        rw [htm]
        exact htf
      · intro v
        unfold Solver.suggestDelta
        dsimp only
        have : (mapFind? s1.tags marker).getD zeroTag = tag := by rw [htf]; rfl
        rw [this, mapFind?_mapInsert_self]
        simp

theorem findTerm?_mem (ts : List Term) (id : SymbolID) (k : ℚ)
    (h : findTerm? ts id = some k) : ∃ t ∈ ts, t.coeff = k ∧ t.id = id := by
  induction ts with
  | nil => cases h
  | cons t ts ih =>
    unfold findTerm? at h
    split at h
    · cases h
      exact ⟨t, List.mem_cons_self _ _, rfl, by assumption⟩
    · obtain ⟨u, hu, hc, hi⟩ := ih h
      exact ⟨u, List.mem_cons_of_mem _ hu, hc, hi⟩

theorem mapFind?_mapInsert {α : Type} (m : List (SymbolID × α)) (k k' : SymbolID)
    (v : α) :
    mapFind? (mapInsert m k v) k' = if k = k' then some v else mapFind? m k' := by
  induction m with
  | nil => simp [mapInsert, mapFind?]
  | cons e rest ih =>
    by_cases h : e.1 = k
    · by_cases h' : k = k'
      · simp [mapInsert, mapFind?, h, h']
      · have h2 : ¬ k' = k := fun hh => h' hh.symm
        have h3 : ¬ e.1 = k' := fun hh => h' (h.symm.trans hh)
        simp [mapInsert, mapFind?, h, h', h2, h3]
    · by_cases h' : e.1 = k'
      · have h2 : ¬ k = k' := fun hk => h (hk ▸ h')
        have h4 : ¬ k' = k := fun hh => h2 hh.symm
        simp [mapInsert, mapFind?, h, h', h2, h4]
      · simp [mapInsert, mapFind?, h, h', ih]

theorem suggestStep_eq (marker : SymbolID) (delta : ℚ) (acc : Solver) (symbol : SymbolID)
    (hng : NoGhost acc) :
    suggestStep marker delta acc symbol = suggestSpecStep marker delta acc symbol := by
  unfold suggestStep suggestSpecStep
  cases h1 : mapFind? acc.tabs symbol with
  | none => rfl
  | some row =>
    dsimp only
    cases h2 : findTerm? row.expr.terms marker with
    | none => rfl
    | some coeff =>
      obtain ⟨t, hmem, hc, _⟩ := findTerm?_mem _ _ _ h2
      have hz : zero coeff = false := hc ▸ hng symbol row h1 t hmem
      simp [hz]

theorem suggestStep_ghost (marker : SymbolID) (delta : ℚ) (acc : Solver) (symbol : SymbolID)
    (hng : NoGhost acc) : NoGhost (suggestStep marker delta acc symbol) := by
  unfold suggestStep
  cases h1 : mapFind? acc.tabs symbol with
  | none => exact hng
  | some row =>
    dsimp only
    cases h2 : findTerm? row.expr.terms marker with
    | none => exact hng
    | some coeff =>
      dsimp only
      have base : NoGhost { acc with tabs := mapInsert acc.tabs symbol ({ row with expr := { row.expr with constant := row.expr.constant + coeff * delta } }) } := by
        intro k r hk t ht
        rw [mapFind?_mapInsert] at hk
        split at hk
        · cases hk
          exact hng symbol row h1 t ht
        · exact hng k r hk t ht
      split
      · exact hng
      · split
        · exact base
        · split
          · exact base
          · intro k r hk t ht
            exact base k r hk t ht

theorem foldl_suggestStep_eq (marker : SymbolID) (delta : ℚ) (l : List SymbolID)
    (acc : Solver) (hng : NoGhost acc) :
    l.foldl (suggestStep marker delta) acc = l.foldl (suggestSpecStep marker delta) acc := by
  induction l generalizing acc with
  | nil => rfl
  | cons x xs ih =>
    simp only [List.foldl_cons]
    rw [← suggestStep_eq marker delta acc x hng]
    exact ih _ (suggestStep_ghost marker delta acc x hng)

theorem suggestBranch_eq (ord : List SymbolID → List SymbolID) (s : Solver) (tag : Tag)
    (delta : ℚ) (hng : NoGhost s) :
    suggestBranch ord s tag delta = suggestSpecBranch ord s tag delta := by
  unfold suggestBranch suggestSpecBranch
  cases h1 : mapFind? s.tabs tag.marker with
  | some row => rfl
  | none =>
    dsimp only
    cases h2 : mapFind? s.tabs tag.other with
    | some row => rfl
    | none => exact foldl_suggestStep_eq _ _ _ _ hng

/-- C3 counterexample: on the state `c3Ghost`, whose single row holds the edit
marker with the sub-epsilon coefficient `10⁻⁹`, `Suggest` and the spec's
wording of the propagation loop disagree: the code skips the row (its
constant stays `5`), the claimed update adds `coeff * delta = 1` (constant
`6`). -/
theorem suggest_spec_mismatch :
    (c3Ghost.suggest ordId 5 0 1000000000).map (fun r => r.1.val 3) ≠
      (c3Ghost.suggestSpec ordId 5 0 1000000000).map (fun r => r.1.val 3) := by
  with_unfolding_all decide

/-- C3 amended: on every state whose stored rows hold no sub-epsilon
coefficients (the spec's own no-ghost invariant), `Suggest` behaves exactly as
the claim describes: NotEdit on unregistered symbols, otherwise
`delta = value - previous`, store the value, propagate through marker-basic /
other-basic / marker-rows (pushing the infeasible symbols as described), then
run dual optimisation.  The code differs from the claim's wording only in
skipping rows whose marker coefficient is within epsilon of zero. -/
theorem suggest_follows_spec (ord : List SymbolID → List SymbolID) (fuel : Nat)
    (s : Solver) (id : SymbolID) (val : ℚ) (hng : NoGhost s) :
    s.suggest ord fuel id val = s.suggestSpec ord fuel id val := by
  unfold Solver.suggest Solver.suggestSpec
  cases he : mapFind? s.edits id with
  | none => rfl
  | some ed =>
    dsimp only
    have hdelta : s.suggestDelta id val = val - ed.val := by
      unfold Solver.suggestDelta
      rw [he]
      rfl
    rw [hdelta]
    have hng1 : NoGhost { s with edits := mapInsert s.edits id { ed with val := val } } :=
      fun k row h => hng k row h
    rw [suggestBranch_eq _ _ _ _ hng1]

theorem suggest_follows_spec_w :
    c3Wit.suggest ordId 5 0 7 = c3Wit.suggestSpec ordId 5 0 7 :=
  suggest_follows_spec ordId 5 c3Wit 0 7 (fun _ _ h => by cases h)

theorem mapInsert_self {α : Type} (m : List (SymbolID × α)) (k : SymbolID) (v : α)
    (h : mapFind? m k = some v) : mapInsert m k v = m := by
  induction m with
  | nil => cases h
  | cons e rest ih =>
    unfold mapFind? at h
    unfold mapInsert
    split at h
    · rename_i hek
      cases h
      rw [if_pos hek]
      rw [← hek]
    · rename_i hek
      rw [if_neg hek, ih h]

/-- C6 counterexample: from the state `c6State`, `suggest(0, 5)` once leaves
the external symbol `4` at value `10`, while `suggest(0, 5)` twice leaves it
at `17`: the second identical suggest is not a no-op on visible values. -/
theorem suggest_not_idempotent :
    ((c6State.suggest ordId 9 0 5).bind (fun r => r.1.suggest ordId 9 0 5)).map
        (fun r => r.1.val 4) ≠
      (c6State.suggest ordId 9 0 5).map (fun r => r.1.val 4) := by
  with_unfolding_all decide

theorem suggestStep_zero (marker : SymbolID) (s : Solver) (symbol : SymbolID)
    (hfeas : ∀ k row, mapFind? s.tabs k = some row → s.symKind k ≠ .external →
      0 ≤ row.expr.constant) :
    suggestStep marker 0 s symbol = s := by
  unfold suggestStep
  cases h1 : mapFind? s.tabs symbol with
  | none => rfl
  | some row =>
    dsimp only
    cases h2 : findTerm? row.expr.terms marker with
    | none => rfl
    | some coeff =>
      dsimp only
      split
      · rfl
      · rw [mul_zero, add_zero]
        have hins : mapInsert s.tabs symbol ⟨row.op, ⟨row.expr.constant, row.expr.terms⟩⟩
            = s.tabs := by
          rw [show (⟨row.op, ⟨row.expr.constant, row.expr.terms⟩⟩ : Constraint) = row from rfl]
          exact mapInsert_self _ _ _ h1
        by_cases hc : (0:ℚ) ≤ row.expr.constant
        · rw [if_pos hc]
          rw [hins]
        · rw [if_neg hc]
          have hext : s.symKind symbol = .external := by
            by_contra hne
            exact hc (hfeas symbol row h1 hne)
          have hext' : Solver.symKind { s with tabs := mapInsert s.tabs symbol ⟨row.op, ⟨row.expr.constant, row.expr.terms⟩⟩ } symbol = .external := hext
          rw [if_pos hext']
          rw [hins]

theorem foldl_suggestStep_zero (marker : SymbolID) (s : Solver) (l : List SymbolID)
    (hfeas : ∀ k row, mapFind? s.tabs k = some row → s.symKind k ≠ .external →
      0 ≤ row.expr.constant) :
    l.foldl (suggestStep marker 0) s = s := by
  induction l with
  | nil => rfl
  | cons x xs ih =>
    simp only [List.foldl_cons]
    rw [suggestStep_zero marker s x hfeas]
    exact ih

theorem suggestBranch_zero (ord : List SymbolID → List SymbolID) (s : Solver) (tag : Tag)
    (hfeas : ∀ k row, mapFind? s.tabs k = some row → s.symKind k ≠ .external →
      0 ≤ row.expr.constant)
    (hm : ∀ row, mapFind? s.tabs tag.marker = some row → 0 ≤ row.expr.constant)
    (ho : ∀ row, mapFind? s.tabs tag.other = some row → 0 ≤ row.expr.constant) :
    suggestBranch ord s tag 0 = s := by
  unfold suggestBranch
  cases h1 : mapFind? s.tabs tag.marker with
  | some row =>
    dsimp only
    rw [sub_zero]
    have hins : mapInsert s.tabs tag.marker ⟨row.op, ⟨row.expr.constant, row.expr.terms⟩⟩
        = s.tabs := by
      rw [show (⟨row.op, ⟨row.expr.constant, row.expr.terms⟩⟩ : Constraint) = row from rfl]
      exact mapInsert_self _ _ _ h1
    rw [if_neg (not_lt.mpr (hm row h1))]
    rw [hins]
  | none =>
    dsimp only
    cases h2 : mapFind? s.tabs tag.other with
    | some row =>
      dsimp only
      rw [sub_zero]
      have hins : mapInsert s.tabs tag.other ⟨row.op, ⟨row.expr.constant, row.expr.terms⟩⟩
          = s.tabs := by
        rw [show (⟨row.op, ⟨row.expr.constant, row.expr.terms⟩⟩ : Constraint) = row from rfl]
        exact mapInsert_self _ _ _ h2
      rw [if_neg (not_lt.mpr (ho row h2))]
      rw [hins]
    | none => exact foldl_suggestStep_zero _ _ _ hfeas

theorem dual_empty (ord : List SymbolID → List SymbolID) (fuel : Nat) (s : Solver)
    (h : s.infeasible = []) : s.optimizeDualObjective ord fuel = some s := by
  unfold Solver.optimizeDualObjective
  rw [h]
  rfl

/-- C6 amended: the second `suggest(v, x)` is a no-op provided the state is
dual-feasible where it matters: if the stored value for `v` already equals `x`
(as it does right after a successful `suggest(v, x)`), the infeasible stack is
empty, every basic row whose basic symbol is registered as non-External has a
nonnegative constant, and so do the marker and other rows of `v`'s edit tag,
then `suggest(v, x)` returns the state unchanged — hence `value_of` is
unchanged for every external symbol.  (Without the feasibility conditions the
claim fails, e.g. when a negative row's basic symbol has been dropped from the
registry, as the counterexample shows.) -/
theorem suggest_idempotent (ord : List SymbolID → List SymbolID) (fuel : Nat)
    (s : Solver) (v : SymbolID) (x : ℚ) (e : Edit)
    (he : mapFind? s.edits v = some e) (hval : e.val = x)
    (hinf : s.infeasible = [])
    (hfeas : ∀ k row, mapFind? s.tabs k = some row → s.symKind k ≠ .external →
      0 ≤ row.expr.constant)
    (hm : ∀ row, mapFind? s.tabs e.tag.marker = some row → 0 ≤ row.expr.constant)
    (ho : ∀ row, mapFind? s.tabs e.tag.other = some row → 0 ≤ row.expr.constant) :
    s.suggest ord fuel v x = some (s, none) := by
  unfold Solver.suggest
  rw [he]
  dsimp only
  have hd : s.suggestDelta v x = 0 := by
    unfold Solver.suggestDelta
    rw [he]
    show x - e.val = 0
    rw [hval, sub_self]
  rw [hd]
  have hrec : ({ e with val := x } : Edit) = e := by
    cases e
    cases hval
    rfl
  rw [hrec, mapInsert_self _ _ _ he]
  rw [suggestBranch_zero ord s e.tag hfeas hm ho]
  rw [dual_empty ord fuel s hinf]

theorem suggest_idempotent_w :
    c6Wit.suggest ordId 5 0 7 = some (c6Wit, none) :=
  suggest_idempotent ordId 5 c6Wit 0 7 ⟨⟨1, 5, 6⟩, 7⟩ (by with_unfolding_all rfl) rfl rfl
    (fun _ _ h => by cases h) (fun _ h => by cases h) (fun _ h => by cases h)

theorem mapFind?_none_iff {α : Type} (m : List (SymbolID × α)) (k : SymbolID) :
    mapFind? m k = none ↔ k ∉ keysOf m := by
  induction m with
  | nil => simp [mapFind?, keysOf]
  | cons e rest ih =>
    by_cases h : e.1 = k
    · simp [mapFind?, keysOf, h]
    · simp only [mapFind?, if_neg h, keysOf, List.map_cons, List.mem_cons]
      rw [ih]
      unfold keysOf
      constructor
      · intro hn hmem
        rcases hmem with h1 | h2
        · exact h h1.symm
        · exact hn h2
      · intro hn hmem
        exact hn (Or.inr hmem)

theorem mapFind?_mem_keys {α : Type} (m : List (SymbolID × α)) (k : SymbolID) (v : α)
    (h : mapFind? m k = some v) : k ∈ keysOf m := by
  by_contra hn
  rw [← mapFind?_none_iff] at hn
  rw [h] at hn
  cases hn

theorem keysOf_cons {α : Type} (e : SymbolID × α) (rest : List (SymbolID × α)) :
    keysOf (e :: rest) = e.1 :: keysOf rest := rfl

theorem mapFind?_cons {α : Type} (e : SymbolID × α) (rest : List (SymbolID × α))
    (k : SymbolID) :
    mapFind? (e :: rest) k = if e.1 = k then some e.2 else mapFind? rest k := rfl

theorem mapInsert_cons {α : Type} (e : SymbolID × α) (rest : List (SymbolID × α))
    (k : SymbolID) (v : α) :
    mapInsert (e :: rest) k v = if e.1 = k then (k, v) :: rest else e :: mapInsert rest k v := rfl

theorem mapErase_cons {α : Type} (e : SymbolID × α) (rest : List (SymbolID × α))
    (k : SymbolID) :
    mapErase (e :: rest) k = if e.1 = k then rest else e :: mapErase rest k := rfl

theorem keysOf_mapInsert_found {α : Type} (m : List (SymbolID × α)) (k : SymbolID)
    (v : α) (h : k ∈ keysOf m) : keysOf (mapInsert m k v) = keysOf m := by
  induction m with
  | nil => cases h
  | cons e rest ih =>
    rw [keysOf_cons, List.mem_cons] at h
    rw [mapInsert_cons]
    by_cases he : e.1 = k
    · rw [if_pos he, keysOf_cons, keysOf_cons]
      rw [he]
    · rw [if_neg he, keysOf_cons, keysOf_cons]
      have h' : k ∈ keysOf rest := by
        rcases h with h1 | h2
        · exact absurd h1.symm he
        · exact h2
      rw [ih h']

theorem keysOf_mapInsert_fresh {α : Type} (m : List (SymbolID × α)) (k : SymbolID)
    (v : α) (h : k ∉ keysOf m) : keysOf (mapInsert m k v) = keysOf m ++ [k] := by
  induction m with
  | nil => rfl
  | cons e rest ih =>
    rw [keysOf_cons, List.mem_cons] at h
    push_neg at h
    rw [mapInsert_cons, if_neg (fun hh => h.1 hh.symm), keysOf_cons, keysOf_cons,
      List.cons_append, ih h.2]

theorem keysOf_mapErase_sub {α : Type} (m : List (SymbolID × α)) (k : SymbolID) :
    ∀ x ∈ keysOf (mapErase m k), x ∈ keysOf m := by
  induction m with
  | nil => intro x hx; cases hx
  | cons e rest ih =>
    intro x hx
    rw [mapErase_cons] at hx
    rw [keysOf_cons, List.mem_cons]
    by_cases he : e.1 = k
    · rw [if_pos he] at hx
      exact Or.inr hx
    · rw [if_neg he, keysOf_cons, List.mem_cons] at hx
      rcases hx with h1 | h2
      · exact Or.inl h1
      · exact Or.inr (ih x h2)

theorem keysOf_mapErase_nodup {α : Type} (m : List (SymbolID × α)) (k : SymbolID)
    (h : (keysOf m).Nodup) : (keysOf (mapErase m k)).Nodup := by
  induction m with
  | nil => exact h
  | cons e rest ih =>
    rw [keysOf_cons, List.nodup_cons] at h
    rw [mapErase_cons]
    by_cases he : e.1 = k
    · rw [if_pos he]
      exact h.2
    · rw [if_neg he, keysOf_cons, List.nodup_cons]
      exact ⟨fun hm => h.1 (keysOf_mapErase_sub rest k _ hm), ih h.2⟩

theorem mapErase_self_not_mem {α : Type} (m : List (SymbolID × α)) (k : SymbolID)
    (h : (keysOf m).Nodup) : k ∉ keysOf (mapErase m k) := by
  induction m with
  | nil => intro hx; cases hx
  | cons e rest ih =>
    rw [keysOf_cons, List.nodup_cons] at h
    rw [mapErase_cons]
    by_cases he : e.1 = k
    · rw [if_pos he]
      intro hm
      exact h.1 (he ▸ hm)
    · rw [if_neg he, keysOf_cons, List.mem_cons]
      intro hm
      rcases hm with h1 | h2
      · exact he h1.symm
      · exact ih h.2 h2

theorem mapFind?_mapErase {α : Type} (m : List (SymbolID × α)) (k k' : SymbolID)
    (hne : k ≠ k') : mapFind? (mapErase m k) k' = mapFind? m k' := by
  induction m with
  | nil => rfl
  | cons e rest ih =>
    rw [mapErase_cons]
    by_cases he : e.1 = k
    · rw [if_pos he, mapFind?_cons, if_neg (fun hh => hne (he.symm.trans hh))]
    · rw [if_neg he, mapFind?_cons, mapFind?_cons]
      by_cases he' : e.1 = k'
      · rw [if_pos he', if_pos he']
      · rw [if_neg he', if_neg he', ih]

theorem mapFind?_mapErase_self {α : Type} (m : List (SymbolID × α)) (k : SymbolID)
    (h : (keysOf m).Nodup) : mapFind? (mapErase m k) k = none :=
  (mapFind?_none_iff _ _).mpr (mapErase_self_not_mem m k h)

theorem findTerm?_eq_none_iff (ts : List Term) (id : SymbolID) :
    findTerm? ts id = none ↔ id ∉ ts.map (fun t => t.id) := by
  induction ts with
  | nil => simp [findTerm?]
  | cons t ts ih =>
    by_cases h : t.id = id
    · simp [findTerm?, h]
    · simp only [findTerm?, if_neg h, List.map_cons, List.mem_cons]
      rw [ih]
      constructor
      · intro hn hmem
        rcases hmem with h1 | h2
        · exact h h1.symm
        · exact hn h2
      · intro hn hmem
        exact hn (Or.inr hmem)

theorem removeFirst_sublist (ts : List Term) (id : SymbolID) :
    List.Sublist (removeFirst ts id) ts := by
  induction ts with
  | nil => exact List.Sublist.refl _
  | cons t ts ih =>
    by_cases h : t.id = id
    · simp only [removeFirst, if_pos h]
      exact (List.Sublist.refl _).cons _
    · simp only [removeFirst, if_neg h]
      exact List.Sublist.cons₂ _ ih

theorem removeFirst_ids_sub (ts : List Term) (id x : SymbolID)
    (h : x ∈ (removeFirst ts id).map (fun t => t.id)) : x ∈ ts.map (fun t => t.id) :=
  ((removeFirst_sublist ts id).map (fun t => t.id)).subset h

theorem removeFirst_nodup (ts : List Term) (id : SymbolID)
    (h : (ts.map (fun t => t.id)).Nodup) : ((removeFirst ts id).map (fun t => t.id)).Nodup :=
  h.sublist ((removeFirst_sublist ts id).map (fun t => t.id))

theorem removeFirst_self_not_mem (ts : List Term) (id : SymbolID)
    (h : (ts.map (fun t => t.id)).Nodup) : id ∉ (removeFirst ts id).map (fun t => t.id) := by
  induction ts with
  | nil => intro hx; cases hx
  | cons t ts ih =>
    simp only [List.map_cons, List.nodup_cons] at h
    by_cases ht : t.id = id
    · simp only [removeFirst, if_pos ht]
      intro hm
      exact h.1 (ht ▸ hm)
    · simp only [removeFirst, if_neg ht, List.map_cons, List.mem_cons]
      intro hm
      rcases hm with h1 | h2
      · exact ht h1.symm
      · exact ih h.2 h2

theorem addTerm_ids_sub (ts : List Term) (k : ℚ) (id x : SymbolID)
    (h : x ∈ (addTerm ts k id).map (fun t => t.id)) :
    x ∈ ts.map (fun t => t.id) ∨ x = id := by
  induction ts with
  | nil =>
    unfold addTerm at h
    split at h
    · cases h
    · simp at h
      exact Or.inr h
  | cons t ts ih =>
    unfold addTerm at h
    split at h
    · rename_i ht
      split at h
      · exact Or.inl (by simp [List.mem_map] at h ⊢; exact Or.inr h)
      · simp only [List.map_cons, List.mem_cons] at h
        rcases h with h1 | h2
        · exact Or.inr h1
        · exact Or.inl (by simp [List.mem_cons]; right; simpa using h2)
    · rename_i ht
      simp only [List.map_cons, List.mem_cons] at h
      rcases h with h1 | h2
      · exact Or.inl (by simp [h1])
      · rcases ih h2 with h3 | h4
        · exact Or.inl (by simp [List.mem_cons]; right; simpa using h3)
        · exact Or.inr h4

theorem addTerm_nodup (ts : List Term) (k : ℚ) (id : SymbolID)
    (h : (ts.map (fun t => t.id)).Nodup) : ((addTerm ts k id).map (fun t => t.id)).Nodup := by
  induction ts with
  | nil =>
    unfold addTerm
    split
    · exact List.nodup_nil
    · simp
  | cons t ts ih =>
    simp only [List.map_cons, List.nodup_cons] at h
    unfold addTerm
    split
    · rename_i ht
      split
      · exact h.2
      · simp only [List.map_cons, List.nodup_cons]
        exact ⟨fun hm => h.1 (ht ▸ hm), h.2⟩
    · rename_i ht
      simp only [List.map_cons, List.nodup_cons]
      refine ⟨?_, ih h.2⟩
      intro hm
      rcases addTerm_ids_sub ts k id t.id hm with h1 | h2
      · exact h.1 h1
      · exact ht h2

theorem addTerm_not_mem (ts : List Term) (k : ℚ) (id x : SymbolID)
    (hx : x ∉ ts.map (fun t => t.id)) (hxid : x ≠ id) :
    x ∉ (addTerm ts k id).map (fun t => t.id) := by
  intro hm
  rcases addTerm_ids_sub ts k id x hm with h1 | h2
  · exact hx h1
  · exact hxid h2

theorem addSymbol_ids_sub (c : Expr) (k : ℚ) (id x : SymbolID)
    (h : x ∈ (c.addSymbol k id).terms.map (fun t => t.id)) :
    x ∈ c.terms.map (fun t => t.id) ∨ x = id :=
  addTerm_ids_sub c.terms k id x h

theorem addSymbol_nodup (c : Expr) (k : ℚ) (id : SymbolID) (h : ExprOK c) :
    ExprOK (c.addSymbol k id) :=
  addTerm_nodup c.terms k id h

theorem addExpr_fold_ids (co : ℚ) (ts : List Term) :
    ∀ (acc : Expr) (x : SymbolID),
      x ∈ (ts.foldl (fun a t => a.addSymbol (co * t.coeff) t.id) acc).terms.map
          (fun t => t.id) →
      x ∈ acc.terms.map (fun t => t.id) ∨ x ∈ ts.map (fun t => t.id) := by
  induction ts with
  | nil => intro acc x h; exact Or.inl h
  | cons t ts ih =>
    intro acc x h
    simp only [List.foldl_cons] at h
    rcases ih _ x h with h1 | h2
    · rcases addSymbol_ids_sub acc _ t.id x h1 with h3 | h4
      · exact Or.inl h3
      · exact Or.inr (by rw [h4]; simp)
    · refine Or.inr ?_
      simp only [List.map_cons, List.mem_cons]
      exact Or.inr h2

theorem addExpr_fold_nodup (co : ℚ) (ts : List Term) :
    ∀ (acc : Expr), ExprOK acc →
      ExprOK (ts.foldl (fun a t => a.addSymbol (co * t.coeff) t.id) acc) := by
  induction ts with
  | nil => intro acc h; exact h
  | cons t ts ih =>
    intro acc h
    simp only [List.foldl_cons]
    exact ih _ (addSymbol_nodup acc _ t.id h)

theorem addExpr_ids_sub (c : Expr) (co : ℚ) (other : Expr) (x : SymbolID)
    (h : x ∈ (c.addExpr co other).terms.map (fun t => t.id)) :
    x ∈ c.terms.map (fun t => t.id) ∨ x ∈ other.terms.map (fun t => t.id) := by
  unfold Expr.addExpr at h
  exact addExpr_fold_ids co other.terms
    { c with constant := c.constant + co * other.constant } x h

theorem addExpr_nodup (c : Expr) (co : ℚ) (other : Expr) (h : ExprOK c) :
    ExprOK (c.addExpr co other) := by
  unfold Expr.addExpr
  exact addExpr_fold_nodup co other.terms
    { c with constant := c.constant + co * other.constant } h

theorem negate_ids (c : Expr) :
    c.negate.terms.map (fun t => t.id) = c.terms.map (fun t => t.id) := by
  unfold Expr.negate
  rw [List.map_map]
  rfl

theorem solveFor_ids_sub (c : Expr) (id x : SymbolID)
    (h : x ∈ (c.solveFor id).terms.map (fun t => t.id)) :
    x ∈ c.terms.map (fun t => t.id) := by
  unfold Expr.solveFor at h
  split at h
  · exact h
  · dsimp only at h
    rw [List.map_map] at h
    exact removeFirst_ids_sub c.terms id x h

theorem solveFor_nodup (c : Expr) (id : SymbolID) (h : ExprOK c) :
    ExprOK (c.solveFor id) := by
  unfold Expr.solveFor
  split
  · exact h
  · dsimp only
    unfold ExprOK
    dsimp only
    rw [List.map_map]
    exact removeFirst_nodup c.terms id h

theorem solveFor_self_not_mem (c : Expr) (id : SymbolID) (h : ExprOK c) :
    id ∉ (c.solveFor id).terms.map (fun t => t.id) := by
  unfold Expr.solveFor
  split
  · rename_i hn
    exact (findTerm?_eq_none_iff c.terms id).mp hn
  · dsimp only
    rw [List.map_map]
    exact removeFirst_self_not_mem c.terms id h

theorem substitute_ids_sub (c : Expr) (id : SymbolID) (other : Expr) (x : SymbolID)
    (h : x ∈ (c.substitute id other).terms.map (fun t => t.id)) :
    x ∈ c.terms.map (fun t => t.id) ∨ x ∈ other.terms.map (fun t => t.id) := by
  unfold Expr.substitute at h
  split at h
  · exact Or.inl h
  · rcases addExpr_ids_sub _ _ _ x h with h1 | h2
    · exact Or.inl (removeFirst_ids_sub c.terms id x h1)
    · exact Or.inr h2

theorem substitute_nodup (c : Expr) (id : SymbolID) (other : Expr) (h : ExprOK c) :
    ExprOK (c.substitute id other) := by
  unfold Expr.substitute
  split
  · exact h
  · exact addExpr_nodup _ _ _ (removeFirst_nodup c.terms id h)

theorem substitute_not_mem (c : Expr) (id : SymbolID) (other : Expr) (x : SymbolID)
    (h1 : x ∉ c.terms.map (fun t => t.id)) (h2 : x ∉ other.terms.map (fun t => t.id)) :
    x ∉ (c.substitute id other).terms.map (fun t => t.id) := by
  intro hm
  rcases substitute_ids_sub c id other x hm with h3 | h4
  · exact h1 h3
  · exact h2 h4

theorem substitute_scrub (c : Expr) (id : SymbolID) (other : Expr) (h : ExprOK c)
    (h2 : id ∉ other.terms.map (fun t => t.id)) :
    id ∉ (c.substitute id other).terms.map (fun t => t.id) := by
  unfold Expr.substitute
  split
  · rename_i hn
    exact (findTerm?_eq_none_iff c.terms id).mp hn
  · intro hm
    rcases addExpr_ids_sub _ _ _ id hm with h3 | h4
    · exact removeFirst_self_not_mem c.terms id h h3
    · exact h2 h4

theorem solveForSymbols_ids_sub (c : Expr) (lhs rhs x : SymbolID)
    (h : x ∈ (c.solveForSymbols lhs rhs).terms.map (fun t => t.id)) :
    x ∈ c.terms.map (fun t => t.id) ∨ x = lhs := by
  unfold Expr.solveForSymbols at h
  exact addSymbol_ids_sub c (-1) lhs x (solveFor_ids_sub _ rhs x h)

theorem solveForSymbols_nodup (c : Expr) (lhs rhs : SymbolID) (h : ExprOK c) :
    ExprOK (c.solveForSymbols lhs rhs) :=
  solveFor_nodup _ rhs (addSymbol_nodup c (-1) lhs h)

theorem solveForSymbols_self_not_mem (c : Expr) (lhs rhs : SymbolID) (h : ExprOK c) :
    rhs ∉ (c.solveForSymbols lhs rhs).terms.map (fun t => t.id) :=
  solveFor_self_not_mem _ rhs (addSymbol_nodup c (-1) lhs h)

theorem avoid_def (K : List SymbolID) (e : Expr) :
    Avoid K e ↔ ∀ x ∈ e.terms.map (fun t => t.id), x ∉ K := by
  unfold Avoid
  constructor
  · intro h x hx
    rw [List.mem_map] at hx
    obtain ⟨t, ht, hid⟩ := hx
    exact hid ▸ h t ht
  · intro h t ht
    exact h t.id (List.mem_map_of_mem _ ht)

theorem below_def (n : SymbolID) (e : Expr) :
    IdsBelow n e ↔ ∀ x ∈ e.terms.map (fun t => t.id), x < n := by
  unfold IdsBelow
  constructor
  · intro h x hx
    rw [List.mem_map] at hx
    obtain ⟨t, ht, hid⟩ := hx
    exact hid ▸ h t ht
  · intro h t ht
    exact h t.id (List.mem_map_of_mem _ ht)

theorem substStep_keys (id : SymbolID) (e : Expr) (s : Solver) (x : SymbolID) :
    keysOf (substStep id e s x).tabs = keysOf s.tabs := by
  unfold substStep
  split
  · rfl
  · rename_i row hrow
    dsimp only
    have hk := keysOf_mapInsert_found s.tabs x
      ({ row with expr := row.expr.substitute id e }) (mapFind?_mem_keys _ _ _ hrow)
    split
    · exact hk
    · exact hk

theorem substStep_untouched (id : SymbolID) (e : Expr) (s : Solver) (x : SymbolID) :
    (substStep id e s x).objective = s.objective ∧
      (substStep id e s x).artificial = s.artificial ∧
      (substStep id e s x).symbols = s.symbols := by
  unfold substStep
  split
  · exact ⟨rfl, rfl, rfl⟩
  · dsimp only
    split
    · exact ⟨rfl, rfl, rfl⟩
    · exact ⟨rfl, rfl, rfl⟩

theorem foldl_substStep_keys (id : SymbolID) (e : Expr) (l : List SymbolID) (s : Solver) :
    keysOf ((l.foldl (substStep id e) s).tabs) = keysOf s.tabs := by
  induction l generalizing s with
  | nil => rfl
  | cons x xs ih =>
    simp only [List.foldl_cons]
    exact (ih _).trans (substStep_keys id e s x)

theorem foldl_substStep_untouched (id : SymbolID) (e : Expr) (l : List SymbolID)
    (s : Solver) :
    ((l.foldl (substStep id e) s).objective = s.objective ∧
      (l.foldl (substStep id e) s).artificial = s.artificial ∧
      (l.foldl (substStep id e) s).symbols = s.symbols) := by
  induction l generalizing s with
  | nil => exact ⟨rfl, rfl, rfl⟩
  | cons x xs ih =>
    simp only [List.foldl_cons]
    obtain ⟨h1, h2, h3⟩ := ih (substStep id e s x)
    obtain ⟨g1, g2, g3⟩ := substStep_untouched id e s x
    exact ⟨h1.trans g1, h2.trans g2, h3.trans g3⟩

theorem substStep_rows (id : SymbolID) (e : Expr) (s : Solver) (x : SymbolID)
    (P : Constraint → Prop)
    (hP : ∀ row, P row → P { row with expr := row.expr.substitute id e })
    (hs : ∀ k row, mapFind? s.tabs k = some row → P row) :
    ∀ k row, mapFind? (substStep id e s x).tabs k = some row → P row := by
  intro k row h
  unfold substStep at h
  split at h
  · exact hs k row h
  · rename_i row0 hrow0
    dsimp only at h
    have key : ∀ row', mapFind? (mapInsert s.tabs x
        ({ row0 with expr := row0.expr.substitute id e })) k = some row' → P row' := by
      intro row' h'
      rw [mapFind?_mapInsert] at h'
      split at h'
      · cases h'
        exact hP row0 (hs x row0 hrow0)
      · exact hs k row' h'
    split at h
    · exact key row h
    · exact key row h

theorem foldl_substStep_rows (id : SymbolID) (e : Expr) (l : List SymbolID) (s : Solver)
    (P : Constraint → Prop)
    (hP : ∀ row, P row → P { row with expr := row.expr.substitute id e })
    (hs : ∀ k row, mapFind? s.tabs k = some row → P row) :
    ∀ k row, mapFind? ((l.foldl (substStep id e) s).tabs) k = some row → P row := by
  induction l generalizing s with
  | nil => exact hs
  | cons x xs ih =>
    simp only [List.foldl_cons]
    exact ih _ (substStep_rows id e s x P hP hs)

theorem substStep_keeps_scrubbed (id : SymbolID) (e : Expr)
    (_hide : id ∉ e.terms.map (fun t => t.id)) (s : Solver) (x k : SymbolID)
    (h : ∀ row, mapFind? s.tabs k = some row → id ∉ row.expr.terms.map (fun t => t.id)) :
    ∀ row, mapFind? (substStep id e s x).tabs k = some row →
      id ∉ row.expr.terms.map (fun t => t.id) := by
  intro row hrow
  unfold substStep at hrow
  split at hrow
  · exact h row hrow
  · rename_i row0 hrow0
    dsimp only at hrow
    have key : ∀ row', mapFind? (mapInsert s.tabs x
        ({ row0 with expr := row0.expr.substitute id e })) k = some row' →
        id ∉ row'.expr.terms.map (fun t => t.id) := by
      intro row' h'
      rw [mapFind?_mapInsert] at h'
      split at h'
      · rename_i hxk
        cases h'
        have h0 := h row0 (hxk ▸ hrow0)
        dsimp only
        unfold Expr.substitute
        rw [(findTerm?_eq_none_iff _ _).mpr h0]
        exact h0
      · exact h row' h'
    split at hrow
    · exact key row hrow
    · exact key row hrow

theorem foldl_substStep_keeps_scrubbed (id : SymbolID) (e : Expr)
    (hide : id ∉ e.terms.map (fun t => t.id)) (l : List SymbolID) (s : Solver)
    (k : SymbolID)
    (h : ∀ row, mapFind? s.tabs k = some row → id ∉ row.expr.terms.map (fun t => t.id)) :
    ∀ row, mapFind? ((l.foldl (substStep id e) s).tabs) k = some row →
      id ∉ row.expr.terms.map (fun t => t.id) := by
  induction l generalizing s with
  | nil => exact h
  | cons x xs ih =>
    simp only [List.foldl_cons]
    exact ih _ (substStep_keeps_scrubbed id e hide s x k h)

theorem foldl_substStep_scrub (id : SymbolID) (e : Expr)
    (hide : id ∉ e.terms.map (fun t => t.id)) (l : List SymbolID) (s : Solver)
    (hok : ∀ k row, mapFind? s.tabs k = some row → ExprOK row.expr) :
    ∀ k ∈ l, ∀ row, mapFind? ((l.foldl (substStep id e) s).tabs) k = some row →
      id ∉ row.expr.terms.map (fun t => t.id) := by
  induction l generalizing s with
  | nil => intro k hk; cases hk
  | cons x xs ih =>
    intro k hk row hrow
    simp only [List.foldl_cons] at hrow
    rcases List.mem_cons.mp hk with h1 | h2
    · subst h1
      refine foldl_substStep_keeps_scrubbed id e hide xs (substStep id e s k) k
        ?_ row hrow
      intro row' h'
      unfold substStep at h'
      split at h'
      · rename_i hnone
        rw [hnone] at h'
        cases h'
      · rename_i row0 hrow0
        dsimp only at h'
        have key : ∀ row'', mapFind? (mapInsert s.tabs k
            ({ row0 with expr := row0.expr.substitute id e })) k = some row'' →
            id ∉ row''.expr.terms.map (fun t => t.id) := by
          intro row'' h''
          rw [mapFind?_mapInsert, if_pos rfl] at h''
          cases h''
          exact substitute_scrub _ _ _ (hok k row0 hrow0) hide
        split at h'
        · exact key row' h'
        · exact key row' h'
    · exact ih (substStep id e s x)
        (substStep_rows id e s x (fun row => ExprOK row.expr)
          (fun row hr => substitute_nodup _ _ _ hr) hok) k h2 row hrow

theorem substitute_pack (ord : List SymbolID → List SymbolID) (hcov : Covers ord)
    (s : Solver) (id : SymbolID) (e : Expr) (n : SymbolID)
    (_hok : ExprOK e) (hide : id ∉ e.terms.map (fun t => t.id))
    (hav : Avoid (keysOf s.tabs) e) (hbe : IdsBelow n e)
    (hrows : ∀ k row, mapFind? s.tabs k = some row →
      ExprOK row.expr ∧ Avoid (keysOf s.tabs) row.expr ∧ IdsBelow n row.expr) :
    keysOf (Solver.substitute ord s id e).tabs = keysOf s.tabs ∧
    (∀ k row, mapFind? (Solver.substitute ord s id e).tabs k = some row →
      (ExprOK row.expr ∧ Avoid (keysOf s.tabs) row.expr ∧ IdsBelow n row.expr) ∧
      id ∉ row.expr.terms.map (fun t => t.id)) ∧
    (Solver.substitute ord s id e).objective = s.objective.substitute id e ∧
    (Solver.substitute ord s id e).artificial = s.artificial.substitute id e ∧
    (Solver.substitute ord s id e).symbols = s.symbols := by
  have hstable : ∀ row : Constraint,
      (ExprOK row.expr ∧ Avoid (keysOf s.tabs) row.expr ∧ IdsBelow n row.expr) →
      (ExprOK ({ row with expr := row.expr.substitute id e }).expr ∧
        Avoid (keysOf s.tabs) ({ row with expr := row.expr.substitute id e }).expr ∧
        IdsBelow n ({ row with expr := row.expr.substitute id e }).expr) := by
    intro row ⟨h1, h2, h3⟩
    refine ⟨substitute_nodup _ _ _ h1, ?_, ?_⟩
    · rw [avoid_def]
      intro x hx
      rcases substitute_ids_sub _ _ _ x hx with hm | hm
      · exact (avoid_def _ _).mp h2 x hm
      · exact (avoid_def _ _).mp hav x hm
    · rw [below_def]
      intro x hx
      rcases substitute_ids_sub _ _ _ x hx with hm | hm
      · exact (below_def _ _).mp h3 x hm
      · exact (below_def _ _).mp hbe x hm
  unfold Solver.substitute
  dsimp only
  obtain ⟨ho, ha, hsym⟩ :=
    foldl_substStep_untouched id e (ord (keysOf s.tabs)) s
  refine ⟨foldl_substStep_keys id e _ s, ?_, by rw [ho], by rw [ha], hsym⟩
  intro k row hrow
  refine ⟨foldl_substStep_rows id e _ s _ hstable hrows k row hrow, ?_⟩
  have hk : k ∈ keysOf s.tabs := by
    have := mapFind?_mem_keys _ _ _ hrow
    rwa [foldl_substStep_keys id e _ s] at this
  exact foldl_substStep_scrub id e hide (ord (keysOf s.tabs)) s
    (fun k' row' h' => (hrows k' row' h').1) k (hcov _ _ hk) row hrow

theorem keysOf_mapInsert_cases {α : Type} (m : List (SymbolID × α)) (k : SymbolID)
    (v : α) : ∀ x ∈ keysOf (mapInsert m k v), x ∈ keysOf m ∨ x = k := by
  intro x hx
  by_cases hm : k ∈ keysOf m
  · rw [keysOf_mapInsert_found m k v hm] at hx
    exact Or.inl hx
  · rw [keysOf_mapInsert_fresh m k v hm] at hx
    rcases List.mem_append.mp hx with h1 | h2
    · exact Or.inl h1
    · exact Or.inr (List.mem_singleton.mp h2)

theorem install_wf (s2 : Solver) (entry : SymbolID) (row' : Constraint)
    (h0 : 0 ≤ s2.counter)
    (hnd : (keysOf s2.tabs).Nodup)
    (hkb : ∀ k ∈ keysOf s2.tabs, k < s2.counter)
    (hsb : ∀ k ∈ keysOf s2.symbols, k < s2.counter)
    (htags : ∀ p ∈ s2.tags, p.2.marker < s2.counter ∧ p.2.other < s2.counter)
    (hrows : ∀ k row, mapFind? s2.tabs k = some row →
      (ExprOK row.expr ∧ Avoid (keysOf s2.tabs) row.expr ∧
        IdsBelow s2.counter row.expr) ∧
      entry ∉ row.expr.terms.map (fun t => t.id))
    (hobj : (ExprOK s2.objective ∧ Avoid (keysOf s2.tabs) s2.objective ∧
      IdsBelow s2.counter s2.objective) ∧
      entry ∉ s2.objective.terms.map (fun t => t.id))
    (hart : (ExprOK s2.artificial ∧ Avoid (keysOf s2.tabs) s2.artificial ∧
      IdsBelow s2.counter s2.artificial) ∧
      entry ∉ s2.artificial.terms.map (fun t => t.id))
    (hrok : ExprOK row'.expr) (hrav : Avoid (keysOf s2.tabs) row'.expr)
    (hrbe : IdsBelow s2.counter row'.expr)
    (hre : entry ∉ row'.expr.terms.map (fun t => t.id))
    (hec : entry < s2.counter) :
    WF { s2 with tabs := mapInsert s2.tabs entry row' } := by
  have hkeys : ∀ x ∈ keysOf (mapInsert s2.tabs entry row'),
      x ∈ keysOf s2.tabs ∨ x = entry := keysOf_mapInsert_cases s2.tabs entry row'
  have havlift : ∀ ex : Expr, Avoid (keysOf s2.tabs) ex →
      entry ∉ ex.terms.map (fun t => t.id) →
      Avoid (keysOf (mapInsert s2.tabs entry row')) ex := by
    intro ex h1 h2
    rw [avoid_def]
    intro x hx hk
    rcases hkeys x hk with hm | hm
    · exact (avoid_def _ _).mp h1 x hx hm
    · exact h2 (hm ▸ hx)
  refine ⟨h0, ?_, ?_, hsb, htags, ?_, ?_, ?_⟩
  · by_cases hm : entry ∈ keysOf s2.tabs
    · rw [keysOf_mapInsert_found _ _ _ hm]
      exact hnd
    · rw [keysOf_mapInsert_fresh _ _ _ hm]
      exact List.Nodup.append hnd (List.nodup_singleton entry)
        (by simpa using fun h => hm h)
  · intro k hk
    rcases hkeys k hk with hm | hm
    · exact hkb k hm
    · exact hm ▸ hec
  · intro k row hrow
    rw [mapFind?_mapInsert] at hrow
    split at hrow
    · cases hrow
      exact ⟨hrok, havlift _ hrav hre, hrbe⟩
    · obtain ⟨⟨h1, h2, h3⟩, h4⟩ := hrows k row hrow
      exact ⟨h1, havlift _ h2 h4, h3⟩
  · exact ⟨hobj.1.1, havlift _ hobj.1.2.1 hobj.2, hobj.1.2.2⟩
  · exact ⟨hart.1.1, havlift _ hart.1.2.1 hart.2, hart.1.2.2⟩

theorem avoid_mono (K K' : List SymbolID) (e : Expr) (h : Avoid K e)
    (hsub : ∀ x ∈ K', x ∈ K) : Avoid K' e :=
  fun t ht hk => h t ht (hsub _ hk)

theorem below_mono (n m : SymbolID) (e : Expr) (h : IdsBelow n e) (hnm : n ≤ m) :
    IdsBelow m e :=
  fun t ht => lt_of_lt_of_le (h t ht) hnm

theorem entryScan_mem (s : Solver) (ts : List Term) :
    entryScan s ts = InvalidSymbolID ∨ entryScan s ts ∈ ts.map (fun t => t.id) := by
  induction ts with
  | nil => exact Or.inl rfl
  | cons t ts ih =>
    unfold entryScan
    split
    · rcases ih with h | h
      · exact Or.inl h
      · refine Or.inr ?_
        simp only [List.map_cons, List.mem_cons]
        exact Or.inr h
    · refine Or.inr ?_
      simp

theorem restrictedScan_mem (s : Solver) (ts : List Term) :
    restrictedScan s ts = InvalidSymbolID ∨
      restrictedScan s ts ∈ ts.map (fun t => t.id) := by
  induction ts with
  | nil => exact Or.inl rfl
  | cons t ts ih =>
    unfold restrictedScan
    split
    · refine Or.inr ?_
      simp
    · rcases ih with h | h
      · exact Or.inl h
      · refine Or.inr ?_
        simp only [List.map_cons, List.mem_cons]
        exact Or.inr h

theorem exitScan_mem (s : Solver) (entry : SymbolID) (l : List SymbolID) :
    ∀ (best : Option ℚ) (exit : SymbolID),
      (exit = InvalidSymbolID ∨ (mapFind? s.tabs exit).isSome) →
      (exitScan s entry l best exit = InvalidSymbolID ∨
        (mapFind? s.tabs (exitScan s entry l best exit)).isSome) := by
  induction l with
  | nil => intro best exit h; exact h
  | cons x xs ih =>
    intro best exit h
    unfold exitScan
    split
    · exact ih best exit h
    · split
      · exact ih best exit h
      · rename_i row hrow
        split
        · exact ih best exit h
        · split
          · exact ih best exit h
          · dsimp only
            split
            · exact ih _ x (Or.inr (by rw [hrow]; rfl))
            · exact ih best exit h

theorem dualEntryScan_mem (s : Solver) :
    ∀ (ts : List Term) (best : Option ℚ) (entry : SymbolID),
      dualEntryScan s ts best entry = entry ∨
        dualEntryScan s ts best entry ∈ ts.map (fun t => t.id) := by
  intro ts
  induction ts with
  | nil => intro best entry; exact Or.inl rfl
  | cons t ts ih =>
    intro best entry
    unfold dualEntryScan
    split
    · rcases ih best entry with h | h
      · exact Or.inl h
      · refine Or.inr ?_
        simp only [List.map_cons, List.mem_cons]
        exact Or.inr h
    · split
      · rcases ih best entry with h | h
        · exact Or.inl h
        · refine Or.inr ?_
          simp only [List.map_cons, List.mem_cons]
          exact Or.inr h
      · dsimp only
        split
        · rcases ih (some _) t.id with h | h
          · refine Or.inr ?_
            simp only [List.map_cons, List.mem_cons]
            exact Or.inl h
          · refine Or.inr ?_
            simp only [List.map_cons, List.mem_cons]
            exact Or.inr h
        · rcases ih best entry with h | h
          · exact Or.inl h
          · refine Or.inr ?_
            simp only [List.map_cons, List.mem_cons]
            exact Or.inr h

theorem erase_subst_install_wf (ord : List SymbolID → List SymbolID) (hcov : Covers ord)
    (s : Solver) (exit entry : SymbolID) (row : Constraint) (hwf : WF s)
    (hrok : ExprOK row.expr) (hrav : Avoid (keysOf s.tabs) row.expr)
    (hrbe : IdsBelow s.counter row.expr)
    (hexitlt : exit < s.counter) (hec : entry < s.counter) :
    WF (let s1 : Solver := { s with tabs := mapErase s.tabs exit, symbols := mapErase s.symbols exit }
        let row' : Constraint := { row with expr := row.expr.solveForSymbols exit entry }
        let s2 := Solver.substitute ord s1 entry row'.expr
        { s2 with tabs := mapInsert s2.tabs entry row' }) := by
  dsimp only
  set s1 : Solver := { s with tabs := mapErase s.tabs exit, symbols := mapErase s.symbols exit } with hs1def
  have hnd1 : (keysOf s1.tabs).Nodup := keysOf_mapErase_nodup _ _ hwf.tabsNodup
  have hsub1 : ∀ x ∈ keysOf s1.tabs, x ∈ keysOf s.tabs := keysOf_mapErase_sub _ _
  have hexit1 : exit ∉ keysOf s1.tabs := mapErase_self_not_mem _ _ hwf.tabsNodup
  have hrows1 : ∀ k row0, mapFind? s1.tabs k = some row0 →
      ExprOK row0.expr ∧ Avoid (keysOf s1.tabs) row0.expr ∧
        IdsBelow s.counter row0.expr := by
    intro k row0 h0
    have hk : k ≠ exit := by
      intro hk
      rw [hk, show s1.tabs = mapErase s.tabs exit from rfl,
        mapFind?_mapErase_self _ _ hwf.tabsNodup] at h0
      cases h0
    rw [show s1.tabs = mapErase s.tabs exit from rfl,
      mapFind?_mapErase _ _ _ (fun hh => hk hh.symm)] at h0
    obtain ⟨g1, g2, g3⟩ := hwf.rows k row0 h0
    exact ⟨g1, avoid_mono _ _ _ g2 hsub1, g3⟩
  set row' : Constraint := { row with expr := row.expr.solveForSymbols exit entry }
    with hrowdef'
  have hrok' : ExprOK row'.expr := solveForSymbols_nodup _ _ _ hrok
  have hrsub' : ∀ x ∈ row'.expr.terms.map (fun t => t.id),
      x ∈ row.expr.terms.map (fun t => t.id) ∨ x = exit := by
    intro x hxm
    exact solveForSymbols_ids_sub _ _ _ _ hxm
  have hrav' : Avoid (keysOf s1.tabs) row'.expr := by
    rw [avoid_def]
    intro x hx hk
    rcases hrsub' x hx with h1 | h1
    · exact (avoid_def _ _).mp hrav x h1 (hsub1 x hk)
    · exact hexit1 (h1 ▸ hk)
  have hre' : entry ∉ row'.expr.terms.map (fun t => t.id) :=
    solveForSymbols_self_not_mem _ _ _ hrok
  have hrbe' : IdsBelow s.counter row'.expr := by
    rw [below_def]
    intro x hx
    rcases hrsub' x hx with h1 | h1
    · exact (below_def _ _).mp hrbe x h1
    · exact h1 ▸ hexitlt
  obtain ⟨hkeys2, hrows2, hobj2, hart2, hsym2⟩ :=
    substitute_pack ord hcov s1 entry row'.expr s.counter hrok' hre' hrav' hrbe' hrows1
  obtain ⟨htg2, hed2, hct2⟩ := substitute_parts ord s1 entry row'.expr
  set s2 := Solver.substitute ord s1 entry row'.expr with hs2def
  refine install_wf s2 entry row' (by rw [hct2]; exact hwf.counterPos)
    (by rw [hkeys2]; exact hnd1) ?_ ?_ ?_ ?_ ?_ ?_ hrok'
    (by rw [hkeys2]; exact hrav') (by rw [hct2]; exact hrbe') hre'
    (by rw [hct2]; exact hec)
  · intro k hk
    rw [hkeys2] at hk
    rw [hct2]
    exact hwf.tabsBound k (hsub1 k hk)
  · intro k hk
    rw [hsym2] at hk
    rw [hct2]
    exact hwf.symsBound k (keysOf_mapErase_sub _ _ k hk)
  · intro p hp
    rw [htg2] at hp
    rw [hct2]
    exact hwf.tagsBound p hp
  · intro k row0 h0
    obtain ⟨⟨g1, g2, g3⟩, g4⟩ := hrows2 k row0 h0
    refine ⟨⟨g1, by rw [hkeys2]; exact g2, by rw [hct2]; exact g3⟩, g4⟩
  · rw [hobj2]
    have hobj := hwf.obj
    refine ⟨⟨substitute_nodup _ _ _ hobj.1, ?_, ?_⟩, ?_⟩
    · rw [avoid_def]
      intro x hx hk
      rcases substitute_ids_sub _ _ _ x hx with h1 | h1
      · exact (avoid_def _ _).mp hobj.2.1 x h1 (hsub1 x (hkeys2 ▸ hk))
      · exact (avoid_def _ _).mp hrav' x h1 (hkeys2 ▸ hk)
    · rw [hct2, below_def]
      intro x hx
      rcases substitute_ids_sub _ _ _ x hx with h1 | h1
      · exact (below_def _ _).mp hobj.2.2 x h1
      · exact (below_def _ _).mp hrbe' x h1
    · exact substitute_scrub _ _ _ hobj.1 hre'
  · rw [hart2]
    have hart := hwf.art
    refine ⟨⟨substitute_nodup _ _ _ hart.1, ?_, ?_⟩, ?_⟩
    · rw [avoid_def]
      intro x hx hk
      rcases substitute_ids_sub _ _ _ x hx with h1 | h1
      · exact (avoid_def _ _).mp hart.2.1 x h1 (hsub1 x (hkeys2 ▸ hk))
      · exact (avoid_def _ _).mp hrav' x h1 (hkeys2 ▸ hk)
    · rw [hct2, below_def]
      intro x hx
      rcases substitute_ids_sub _ _ _ x hx with h1 | h1
      · exact (below_def _ _).mp hart.2.2 x h1
      · exact (below_def _ _).mp hrbe' x h1
    · exact substitute_scrub _ _ _ hart.1 hre'

theorem pivotStep_wf (ord : List SymbolID → List SymbolID) (hcov : Covers ord)
    (s : Solver) (entry : SymbolID) (hwf : WF s)
    (hec : entry < s.counter) :
    WF (pivotStep ord s entry) := by
  unfold pivotStep
  have hexit := exitScan_mem s entry (ord (keysOf s.tabs)) none InvalidSymbolID
    (Or.inl rfl)
  generalize hx : exitScan s entry (ord (keysOf s.tabs)) none InvalidSymbolID = exit
  rw [hx] at hexit
  dsimp only
  have hrowfacts : ExprOK ((mapFind? s.tabs exit).getD zeroConstraint).expr ∧
      Avoid (keysOf s.tabs) ((mapFind? s.tabs exit).getD zeroConstraint).expr ∧
      IdsBelow s.counter ((mapFind? s.tabs exit).getD zeroConstraint).expr := by
    cases hfind : mapFind? s.tabs exit with
    | none =>
      refine ⟨List.nodup_nil, ?_, ?_⟩
      · intro t ht
        cases ht
      · intro t ht
        cases ht
    | some row =>
      exact hwf.rows exit row hfind
  have hexitlt : exit < s.counter := by
    cases hfind : mapFind? s.tabs exit with
    | none =>
      rcases hexit with h | h
      · rw [h]
        calc (InvalidSymbolID : Int) < 0 := by decide
          _ ≤ s.counter := hwf.counterPos
      · rw [hfind] at h
        cases h
    | some row => exact hwf.tabsBound exit (mapFind?_mem_keys _ _ _ hfind)
  exact erase_subst_install_wf ord hcov s exit entry
    ((mapFind? s.tabs exit).getD zeroConstraint) hwf hrowfacts.1 hrowfacts.2.1
    hrowfacts.2.2 hexitlt hec

theorem optimizeAgainst_wf (ord : List SymbolID → List SymbolID) (hcov : Covers ord) :
    ∀ (fuel : Nat) (tgt : Target) (s s' : Solver), WF s →
      Solver.optimizeAgainst ord fuel tgt s = some s' → WF s' := by
  intro fuel
  induction fuel with
  | zero => intro tgt s s' _ h; cases h
  | succ n ih =>
    intro tgt s s' hwf h
    unfold Solver.optimizeAgainst at h
    dsimp only at h
    split at h
    · cases h
      exact hwf
    · rename_i hne
      have htgt : ExprOK (s.getTarget tgt) ∧ Avoid (keysOf s.tabs) (s.getTarget tgt) ∧
          IdsBelow s.counter (s.getTarget tgt) := by
        cases tgt
        · exact hwf.obj
        · exact hwf.art
      have hmem := entryScan_mem s (s.getTarget tgt).terms
      rcases hmem with h1 | h1
      · exact absurd h1 hne
      · have hec : entryScan s (s.getTarget tgt).terms < s.counter :=
          (below_def _ _).mp htgt.2.2 _ h1
        exact ih tgt _ s' (pivotStep_wf ord hcov s _ hwf hec) h

theorem optimizeDualObjective_wf (ord : List SymbolID → List SymbolID)
    (hcov : Covers ord) :
    ∀ (fuel : Nat) (s s' : Solver), WF s →
      Solver.optimizeDualObjective ord fuel s = some s' → WF s' := by
  intro fuel
  induction fuel with
  | zero =>
    intro s s' hwf h
    unfold Solver.optimizeDualObjective at h
    cases hlast : s.infeasible.getLast? with
    | none =>
      rw [hlast] at h
      cases h
      exact hwf
    | some exit =>
      rw [hlast] at h
      cases h
  | succ fuel' ih =>
    intro s s' hwf h
    unfold Solver.optimizeDualObjective at h
    cases hlast : s.infeasible.getLast? with
    | none =>
      rw [hlast] at h
      cases h
      exact hwf
    | some exit =>
      rw [hlast] at h
      dsimp only at h
      have hwf1 : WF { s with infeasible := s.infeasible.dropLast } :=
        ⟨hwf.counterPos, hwf.tabsNodup, hwf.tabsBound, hwf.symsBound,
          hwf.tagsBound, hwf.rows, hwf.obj, hwf.art⟩
      cases hfind : mapFind? s.tabs exit with
      | none =>
        rw [hfind] at h
        exact ih _ s' hwf1 h
      | some row =>
        rw [hfind] at h
        dsimp only at h
        split at h
        · exact ih _ s' hwf1 h
        · obtain ⟨hok, hav, hbe⟩ := hwf.rows exit row hfind
          have hexitlt : exit < s.counter :=
            hwf.tabsBound exit (mapFind?_mem_keys _ _ _ hfind)
          have hec : ∀ s0 : Solver,
              dualEntryScan s0 row.expr.terms none InvalidSymbolID < s.counter := by
            intro s0
            rcases dualEntryScan_mem s0 row.expr.terms none InvalidSymbolID
              with h1 | h1
            · rw [h1]
              calc (InvalidSymbolID : Int) < 0 := by decide
                _ ≤ s.counter := hwf.counterPos
            · exact (below_def _ _).mp hbe _ h1
          refine ih _ s' ?_ h
          exact erase_subst_install_wf ord hcov
            { s with infeasible := s.infeasible.dropLast } exit _ row hwf1
            hok hav hbe hexitlt (hec _)

theorem wf_transfer (s t : Solver) (hwf : WF s) (hc : t.counter = s.counter)
    (ht : t.tabs = s.tabs) (hsy : t.symbols = s.symbols) (htg : t.tags = s.tags)
    (ho : t.objective = s.objective) (ha : t.artificial = s.artificial) : WF t := by
  constructor
  · rw [hc]
    exact hwf.counterPos
  · rw [ht]
    exact hwf.tabsNodup
  · rw [ht, hc]
    exact hwf.tabsBound
  · rw [hsy, hc]
    exact hwf.symsBound
  · rw [htg, hc]
    exact hwf.tagsBound
  · rw [ht, hc]
    exact hwf.rows
  · rw [ht, hc, ho]
    exact hwf.obj
  · rw [ht, hc, ha]
    exact hwf.art

theorem constUpdate_wf (s : Solver) (symbol : SymbolID) (row : Constraint)
    (c : ℚ) (hfind : mapFind? s.tabs symbol = some row) (hwf : WF s) :
    WF { s with tabs := mapInsert s.tabs symbol { row with expr := { row.expr with constant := c } } } := by
  have hmem : symbol ∈ keysOf s.tabs := mapFind?_mem_keys _ _ _ hfind
  have hkeys : keysOf (mapInsert s.tabs symbol { row with expr := { row.expr with constant := c } }) = keysOf s.tabs :=
    keysOf_mapInsert_found _ _ _ hmem
  obtain ⟨hok, hav, hbe⟩ := hwf.rows symbol row hfind
  constructor
  · exact hwf.counterPos
  · show (keysOf (mapInsert s.tabs symbol _)).Nodup
    rw [hkeys]
    exact hwf.tabsNodup
  · intro k hk
    rw [hkeys] at hk
    exact hwf.tabsBound k hk
  · exact hwf.symsBound
  · exact hwf.tagsBound
  · intro k row0 h0
    rw [mapFind?_mapInsert] at h0
    by_cases hks : symbol = k
    · rw [if_pos hks] at h0
      cases h0
      exact ⟨hok, by rw [hkeys]; exact hav, hbe⟩
    · rw [if_neg hks] at h0
      obtain ⟨g1, g2, g3⟩ := hwf.rows k row0 h0
      exact ⟨g1, by rw [hkeys]; exact g2, g3⟩
  · refine ⟨hwf.obj.1, ?_, hwf.obj.2.2⟩
    show Avoid (keysOf (mapInsert s.tabs symbol _)) _
    rw [hkeys]
    exact hwf.obj.2.1
  · refine ⟨hwf.art.1, ?_, hwf.art.2.2⟩
    show Avoid (keysOf (mapInsert s.tabs symbol _)) _
    rw [hkeys]
    exact hwf.art.2.1

theorem suggestStep_wf (marker : SymbolID) (delta : ℚ) (acc : Solver)
    (symbol : SymbolID) (hwf : WF acc) :
    WF (suggestStep marker delta acc symbol) := by
  unfold suggestStep
  cases hfind : mapFind? acc.tabs symbol with
  | none => exact hwf
  | some row =>
    dsimp only
    cases hco : findTerm? row.expr.terms marker with
    | none => exact hwf
    | some coeff =>
      dsimp only
      split
      · exact hwf
      · have hbase := constUpdate_wf acc symbol row
          (row.expr.constant + coeff * delta) hfind hwf
        split
        · exact hbase
        · split
          · exact hbase
          · exact wf_transfer _ _ hbase rfl rfl rfl rfl rfl rfl

theorem foldl_suggestStep_wf (marker : SymbolID) (delta : ℚ) :
    ∀ (l : List SymbolID) (acc : Solver), WF acc →
      WF (l.foldl (suggestStep marker delta) acc) := by
  intro l
  induction l with
  | nil => intro acc h; exact h
  | cons x xs ih => intro acc h; exact ih _ (suggestStep_wf _ _ _ _ h)

theorem suggestBranch_wf (ord : List SymbolID → List SymbolID) (s : Solver)
    (tag : Tag) (delta : ℚ) (hwf : WF s) :
    WF (suggestBranch ord s tag delta) := by
  unfold suggestBranch
  cases h1 : mapFind? s.tabs tag.marker with
  | some row =>
    dsimp only
    have hbase := constUpdate_wf s tag.marker row (row.expr.constant - delta) h1 hwf
    split
    · exact wf_transfer _ _ hbase rfl rfl rfl rfl rfl rfl
    · exact hbase
  | none =>
    dsimp only
    cases h2 : mapFind? s.tabs tag.other with
    | some row =>
      dsimp only
      have hbase := constUpdate_wf s tag.other row (row.expr.constant - delta) h2 hwf
      split
      · exact wf_transfer _ _ hbase rfl rfl rfl rfl rfl rfl
      · exact hbase
    | none => exact foldl_suggestStep_wf _ _ _ _ hwf

theorem suggest_wf (ord : List SymbolID → List SymbolID) (hcov : Covers ord)
    (fuel : Nat) (s : Solver) (id : SymbolID) (val : ℚ) (s' : Solver)
    (r : Option SolverError) (hwf : WF s)
    (h : Solver.suggest ord fuel s id val = some (s', r)) : WF s' := by
  unfold Solver.suggest at h
  cases hed : mapFind? s.edits id with
  | none =>
    rw [hed] at h
    cases h
    exact hwf
  | some ed =>
    rw [hed] at h
    dsimp only at h
    have hwf1 : WF { s with edits := mapInsert s.edits id { ed with val := val } } :=
      wf_transfer _ _ hwf rfl rfl rfl rfl rfl rfl
    have hwf2 := suggestBranch_wf ord _ ed.tag (s.suggestDelta id val) hwf1
    split at h
    · cases h
    · rename_i s3 hopt
      cases h
      exact optimizeDualObjective_wf ord hcov fuel _ _ hwf2 hopt

theorem mapFind?_imp_mem {α : Type} (m : List (SymbolID × α)) (k : SymbolID)
    (v : α) (h : mapFind? m k = some v) : (k, v) ∈ m := by
  induction m with
  | nil => cases h
  | cons e rest ih =>
    rw [mapFind?_cons] at h
    by_cases he : e.1 = k
    · rw [if_pos he] at h
      cases h
      rw [← he]
      exact List.mem_cons_self _ _
    · rw [if_neg he] at h
      exact List.mem_cons_of_mem _ (ih h)

theorem mem_mapErase {α : Type} (m : List (SymbolID × α)) (k : SymbolID) :
    ∀ p ∈ mapErase m k, p ∈ m := by
  induction m with
  | nil => intro p hp; cases hp
  | cons e rest ih =>
    intro p hp
    rw [mapErase_cons] at hp
    by_cases he : e.1 = k
    · rw [if_pos he] at hp
      exact List.mem_cons_of_mem _ hp
    · rw [if_neg he] at hp
      rcases List.mem_cons.mp hp with h1 | h1
      · exact h1 ▸ List.mem_cons_self _ _
      · exact List.mem_cons_of_mem _ (ih p h1)

theorem mem_mapInsert {α : Type} (m : List (SymbolID × α)) (k : SymbolID) (v : α) :
    ∀ p ∈ mapInsert m k v, p ∈ m ∨ p = (k, v) := by
  induction m with
  | nil =>
    intro p hp
    rcases List.mem_cons.mp hp with h1 | h1
    · exact Or.inr h1
    · cases h1
  | cons e rest ih =>
    intro p hp
    rw [mapInsert_cons] at hp
    by_cases he : e.1 = k
    · rw [if_pos he] at hp
      rcases List.mem_cons.mp hp with h1 | h1
      · exact Or.inr h1
      · exact Or.inl (List.mem_cons_of_mem _ h1)
    · rw [if_neg he] at hp
      rcases List.mem_cons.mp hp with h1 | h1
      · exact Or.inl (h1 ▸ List.mem_cons_self _ _)
      · rcases ih p h1 with h2 | h2
        · exact Or.inl (List.mem_cons_of_mem _ h2)
        · exact Or.inr h2

theorem objAdjust_parts (s : Solver) (id : SymbolID) (prio : Priority) :
    (objAdjust s id prio).counter = s.counter ∧ (objAdjust s id prio).tabs = s.tabs ∧
      (objAdjust s id prio).symbols = s.symbols ∧ (objAdjust s id prio).tags = s.tags ∧
      (objAdjust s id prio).artificial = s.artificial := by
  unfold objAdjust
  split
  · split
    · exact ⟨rfl, rfl, rfl, rfl, rfl⟩
    · exact ⟨rfl, rfl, rfl, rfl, rfl⟩
  · exact ⟨rfl, rfl, rfl, rfl, rfl⟩

theorem objAdjust_wf (s : Solver) (id : SymbolID) (prio : Priority)
    (hwf : WF s) (hid : id < s.counter) : WF (objAdjust s id prio) := by
  unfold objAdjust
  split
  · split
    · rename_i row hfind
      obtain ⟨hok, hav, hbe⟩ := hwf.rows id row hfind
      refine ⟨hwf.counterPos, hwf.tabsNodup, hwf.tabsBound, hwf.symsBound,
        hwf.tagsBound, hwf.rows, ?_, hwf.art⟩
      refine ⟨addExpr_nodup _ _ _ hwf.obj.1, ?_, ?_⟩
      · rw [avoid_def]
        intro x hx hk
        rcases addExpr_ids_sub _ _ _ x hx with h1 | h1
        · exact (avoid_def _ _).mp hwf.obj.2.1 x h1 hk
        · exact (avoid_def _ _).mp hav x h1 hk
      · rw [below_def]
        intro x hx
        rcases addExpr_ids_sub _ _ _ x hx with h1 | h1
        · exact (below_def _ _).mp hwf.obj.2.2 x h1
        · exact (below_def _ _).mp hbe x h1
    · rename_i hfind
      have hnk : id ∉ keysOf s.tabs := (mapFind?_none_iff _ _).mp hfind
      refine ⟨hwf.counterPos, hwf.tabsNodup, hwf.tabsBound, hwf.symsBound,
        hwf.tagsBound, hwf.rows, ?_, hwf.art⟩
      refine ⟨addSymbol_nodup _ _ _ hwf.obj.1, ?_, ?_⟩
      · rw [avoid_def]
        intro x hx hk
        rcases addSymbol_ids_sub _ _ _ x hx with h1 | h1
        · exact (avoid_def _ _).mp hwf.obj.2.1 x h1 hk
        · exact hnk (h1 ▸ hk)
      · rw [below_def]
        intro x hx
        rcases addSymbol_ids_sub _ _ _ x hx with h1 | h1
        · exact (below_def _ _).mp hwf.obj.2.2 x h1
        · exact h1 ▸ hid
  · exact hwf

theorem erase_key_wf (s : Solver) (k : SymbolID) (hwf : WF s) :
    WF { s with tabs := mapErase s.tabs k, symbols := mapErase s.symbols k } := by
  have hsub : ∀ x ∈ keysOf (mapErase s.tabs k), x ∈ keysOf s.tabs :=
    keysOf_mapErase_sub _ _
  refine ⟨hwf.counterPos, keysOf_mapErase_nodup _ _ hwf.tabsNodup, ?_, ?_,
    hwf.tagsBound, ?_, ?_, ?_⟩
  · intro x hx
    exact hwf.tabsBound x (hsub x hx)
  · intro x hx
    exact hwf.symsBound x (keysOf_mapErase_sub _ _ x hx)
  · intro k' row0 h0
    by_cases hk : k = k'
    · rw [← hk, mapFind?_mapErase_self _ _ hwf.tabsNodup] at h0
      cases h0
    · rw [mapFind?_mapErase _ _ _ hk] at h0
      obtain ⟨g1, g2, g3⟩ := hwf.rows k' row0 h0
      exact ⟨g1, avoid_mono _ _ _ g2 hsub, g3⟩
  · exact ⟨hwf.obj.1, avoid_mono _ _ _ hwf.obj.2.1 hsub, hwf.obj.2.2⟩
  · exact ⟨hwf.art.1, avoid_mono _ _ _ hwf.art.2.1 hsub, hwf.art.2.2⟩

theorem erase_subst_wf (ord : List SymbolID → List SymbolID) (hcov : Covers ord)
    (s : Solver) (exit marker : SymbolID) (row : Constraint) (hwf : WF s)
    (hrok : ExprOK row.expr) (hrav : Avoid (keysOf s.tabs) row.expr)
    (hrbe : IdsBelow s.counter row.expr)
    (hexitlt : exit < s.counter) :
    WF (Solver.substitute ord { s with tabs := mapErase s.tabs exit, symbols := mapErase s.symbols exit } marker (row.expr.solveForSymbols exit marker)) := by
  set s1 : Solver := { s with tabs := mapErase s.tabs exit, symbols := mapErase s.symbols exit } with hs1def
  have hnd1 : (keysOf s1.tabs).Nodup := keysOf_mapErase_nodup _ _ hwf.tabsNodup
  have hsub1 : ∀ x ∈ keysOf s1.tabs, x ∈ keysOf s.tabs := keysOf_mapErase_sub _ _
  have hexit1 : exit ∉ keysOf s1.tabs := mapErase_self_not_mem _ _ hwf.tabsNodup
  have hrows1 : ∀ k row0, mapFind? s1.tabs k = some row0 →
      ExprOK row0.expr ∧ Avoid (keysOf s1.tabs) row0.expr ∧
        IdsBelow s.counter row0.expr := by
    intro k row0 h0
    have hk : k ≠ exit := by
      intro hk
      rw [hk, show s1.tabs = mapErase s.tabs exit from rfl,
        mapFind?_mapErase_self _ _ hwf.tabsNodup] at h0
      cases h0
    rw [show s1.tabs = mapErase s.tabs exit from rfl,
      mapFind?_mapErase _ _ _ (fun hh => hk hh.symm)] at h0
    obtain ⟨g1, g2, g3⟩ := hwf.rows k row0 h0
    exact ⟨g1, avoid_mono _ _ _ g2 hsub1, g3⟩
  have hrok' : ExprOK (row.expr.solveForSymbols exit marker) :=
    solveForSymbols_nodup _ _ _ hrok
  have hrsub' : ∀ x ∈ (row.expr.solveForSymbols exit marker).terms.map (fun t => t.id),
      x ∈ row.expr.terms.map (fun t => t.id) ∨ x = exit := by
    intro x hxm
    exact solveForSymbols_ids_sub _ _ _ _ hxm
  have hrav' : Avoid (keysOf s1.tabs) (row.expr.solveForSymbols exit marker) := by
    rw [avoid_def]
    intro x hx hk
    rcases hrsub' x hx with h1 | h1
    · exact (avoid_def _ _).mp hrav x h1 (hsub1 x hk)
    · exact hexit1 (h1 ▸ hk)
  have hre' : marker ∉ (row.expr.solveForSymbols exit marker).terms.map (fun t => t.id) :=
    solveForSymbols_self_not_mem _ _ _ hrok
  have hrbe' : IdsBelow s.counter (row.expr.solveForSymbols exit marker) := by
    rw [below_def]
    intro x hx
    rcases hrsub' x hx with h1 | h1
    · exact (below_def _ _).mp hrbe x h1
    · exact h1 ▸ hexitlt
  obtain ⟨hkeys2, hrows2, hobj2, hart2, hsym2⟩ :=
    substitute_pack ord hcov s1 marker (row.expr.solveForSymbols exit marker)
      s.counter hrok' hre' hrav' hrbe' hrows1
  obtain ⟨htg2, hed2, hct2⟩ := substitute_parts ord s1 marker
    (row.expr.solveForSymbols exit marker)
  constructor
  · rw [hct2]
    exact hwf.counterPos
  · rw [hkeys2]
    exact hnd1
  · intro k hk
    rw [hkeys2] at hk
    rw [hct2]
    exact hwf.tabsBound k (hsub1 k hk)
  · intro k hk
    rw [hsym2] at hk
    rw [hct2]
    exact hwf.symsBound k (keysOf_mapErase_sub _ _ k hk)
  · intro p hp
    rw [htg2] at hp
    rw [hct2]
    exact hwf.tagsBound p hp
  · intro k row0 h0
    obtain ⟨⟨g1, g2, g3⟩, _⟩ := hrows2 k row0 h0
    exact ⟨g1, by rw [hkeys2]; exact g2, by rw [hct2]; exact g3⟩
  · rw [hobj2]
    have hobj := hwf.obj
    refine ⟨substitute_nodup _ _ _ hobj.1, ?_, ?_⟩
    · rw [avoid_def]
      intro x hx hk
      rcases substitute_ids_sub _ _ _ x hx with h1 | h1
      · exact (avoid_def _ _).mp hobj.2.1 x h1 (hsub1 x (hkeys2 ▸ hk))
      · exact (avoid_def _ _).mp hrav' x h1 (hkeys2 ▸ hk)
    · rw [hct2, below_def]
      intro x hx
      rcases substitute_ids_sub _ _ _ x hx with h1 | h1
      · exact (below_def _ _).mp hobj.2.2 x h1
      · exact (below_def _ _).mp hrbe' x h1
  · rw [hart2]
    have hart := hwf.art
    refine ⟨substitute_nodup _ _ _ hart.1, ?_, ?_⟩
    · rw [avoid_def]
      intro x hx hk
      rcases substitute_ids_sub _ _ _ x hx with h1 | h1
      · exact (avoid_def _ _).mp hart.2.1 x h1 (hsub1 x (hkeys2 ▸ hk))
      · exact (avoid_def _ _).mp hrav' x h1 (hkeys2 ▸ hk)
    · rw [hct2, below_def]
      intro x hx
      rcases substitute_ids_sub _ _ _ x hx with h1 | h1
      · exact (below_def _ _).mp hart.2.2 x h1
      · exact (below_def _ _).mp hrbe' x h1

theorem remStep_fields (s : Solver) (marker : SymbolID) (st : RemScan) (x : SymbolID)
    (h1 : st.first ∈ keysOf s.tabs ∨ st.first = InvalidSymbolID)
    (h2 : st.second ∈ keysOf s.tabs ∨ st.second = InvalidSymbolID)
    (h3 : st.third ∈ keysOf s.tabs ∨ st.third = InvalidSymbolID) :
    ((remStep s marker st x).first ∈ keysOf s.tabs ∨
        (remStep s marker st x).first = InvalidSymbolID) ∧
      ((remStep s marker st x).second ∈ keysOf s.tabs ∨
        (remStep s marker st x).second = InvalidSymbolID) ∧
      ((remStep s marker st x).third ∈ keysOf s.tabs ∨
        (remStep s marker st x).third = InvalidSymbolID) := by
  unfold remStep
  cases hf : mapFind? s.tabs x with
  | none => exact ⟨h1, h2, h3⟩
  | some row =>
    dsimp only
    cases hco : findTerm? row.expr.terms marker with
    | none => exact ⟨h1, h2, h3⟩
    | some coeff =>
      dsimp only
      have hx : x ∈ keysOf s.tabs := mapFind?_mem_keys _ _ _ hf
      split
      · exact ⟨h1, h2, h3⟩
      · split
        · exact ⟨h1, h2, Or.inl hx⟩
        · split
          · exact ⟨Or.inl hx, h2, h3⟩
          · split
            · exact ⟨h1, Or.inl hx, h3⟩
            · exact ⟨h1, h2, h3⟩

theorem remScan_fields (s : Solver) (marker : SymbolID) :
    ∀ (l : List SymbolID) (st : RemScan),
      (st.first ∈ keysOf s.tabs ∨ st.first = InvalidSymbolID) →
      (st.second ∈ keysOf s.tabs ∨ st.second = InvalidSymbolID) →
      (st.third ∈ keysOf s.tabs ∨ st.third = InvalidSymbolID) →
      ((List.foldl (remStep s marker) st l).first ∈ keysOf s.tabs ∨
        (List.foldl (remStep s marker) st l).first = InvalidSymbolID) ∧
      ((List.foldl (remStep s marker) st l).second ∈ keysOf s.tabs ∨
        (List.foldl (remStep s marker) st l).second = InvalidSymbolID) ∧
      ((List.foldl (remStep s marker) st l).third ∈ keysOf s.tabs ∨
        (List.foldl (remStep s marker) st l).third = InvalidSymbolID) := by
  intro l
  induction l with
  | nil =>
    intro st g1 g2 g3
    exact ⟨g1, g2, g3⟩
  | cons x xs ih =>
    intro st g1 g2 g3
    have hstep := remStep_fields s marker st x g1 g2 g3
    exact ih _ hstep.1 hstep.2.1 hstep.2.2

theorem removeExit_wf (ord : List SymbolID → List SymbolID) (hcov : Covers ord)
    (s3 : Solver) (marker : SymbolID) (hwf3 : WF s3) :
    WF (let scan := (ord (keysOf s3.tabs)).foldl (remStep s3 marker) ⟨none, none, InvalidSymbolID, InvalidSymbolID, InvalidSymbolID⟩
        let exit := if scan.first ≠ InvalidSymbolID then scan.first else if scan.second ≠ InvalidSymbolID then scan.second else scan.third
        let row := (mapFind? s3.tabs exit).getD zeroConstraint
        Solver.substitute ord { s3 with tabs := mapErase s3.tabs exit, symbols := mapErase s3.symbols exit } marker (row.expr.solveForSymbols exit marker)) := by
  dsimp only
  have hsf := remScan_fields s3 marker (ord (keysOf s3.tabs))
    ⟨none, none, InvalidSymbolID, InvalidSymbolID, InvalidSymbolID⟩
    (Or.inr rfl) (Or.inr rfl) (Or.inr rfl)
  generalize hscan : List.foldl (remStep s3 marker)
    ⟨none, none, InvalidSymbolID, InvalidSymbolID, InvalidSymbolID⟩
    (ord (keysOf s3.tabs)) = scan at *
  generalize hexit : (if scan.first ≠ InvalidSymbolID then scan.first
    else if scan.second ≠ InvalidSymbolID then scan.second else scan.third) = exit at *
  have hexitmem : exit ∈ keysOf s3.tabs ∨ exit = InvalidSymbolID := by
    rw [← hexit]
    split
    · exact hsf.1
    · split
      · exact hsf.2.1
      · exact hsf.2.2
  cases hfind : mapFind? s3.tabs exit with
  | some row =>
    obtain ⟨hok, hav, hbe⟩ := hwf3.rows exit row hfind
    have hexitlt : exit < s3.counter :=
      hwf3.tabsBound exit (mapFind?_mem_keys _ _ _ hfind)
    exact erase_subst_wf ord hcov s3 exit marker row hwf3 hok hav hbe hexitlt
  | none =>
    have hexitlt : exit < s3.counter := by
      rcases hexitmem with hmem | hinv
      · exact absurd hmem ((mapFind?_none_iff _ _).mp hfind)
      · rw [hinv]
        calc (InvalidSymbolID : Int) < 0 := by decide
          _ ≤ s3.counter := hwf3.counterPos
    refine erase_subst_wf ord hcov s3 exit marker zeroConstraint hwf3 ?_ ?_ ?_ hexitlt
    · exact List.Pairwise.nil
    · intro t ht
      cases ht
    · intro t ht
      cases ht

theorem removeConstraint_wf (ord : List SymbolID → List SymbolID) (hcov : Covers ord)
    (fuel : Nat) (s : Solver) (marker : SymbolID) (s' : Solver)
    (r : Option SolverError) (hwf : WF s)
    (h : Solver.removeConstraint ord fuel s marker = some (s', r)) : WF s' := by
  unfold Solver.removeConstraint at h
  cases htag : mapFind? s.tags marker with
  | none =>
    rw [htag] at h
    cases h
    exact hwf
  | some tag =>
    rw [htag] at h
    dsimp only at h
    have hbounds := hwf.tagsBound _ (mapFind?_imp_mem _ _ _ htag)
    have hwf1 : WF { s with tags := mapErase s.tags tag.marker } := by
      refine ⟨hwf.counterPos, hwf.tabsNodup, hwf.tabsBound, hwf.symsBound, ?_,
        hwf.rows, hwf.obj, hwf.art⟩
      intro p hp
      exact hwf.tagsBound p (mem_mapErase _ _ p hp)
    have hwf2 := objAdjust_wf _ tag.marker tag.prio hwf1 hbounds.1
    have hct2 := (objAdjust_parts { s with tags := mapErase s.tags tag.marker }
      tag.marker tag.prio).1
    have hwf3 := objAdjust_wf _ tag.other tag.prio hwf2 (by rw [hct2]; exact hbounds.2)
    split at h
    · split at h
      · cases h
      · rename_i s5 hopt
        cases h
        exact optimizeAgainst_wf ord hcov fuel .obj _ s'
          (erase_key_wf _ tag.marker hwf3) hopt
    · split at h
      · cases h
      · rename_i s6 hopt
        cases h
        exact optimizeAgainst_wf ord hcov fuel .obj _ s'
          (removeExit_wf ord hcov _ tag.marker hwf3) hopt

theorem rowShrink_wf (s : Solver) (symbol : SymbolID) (row row' : Constraint)
    (hfind : mapFind? s.tabs symbol = some row) (hok' : ExprOK row'.expr)
    (hsub : ∀ x ∈ row'.expr.terms.map (fun t => t.id),
      x ∈ row.expr.terms.map (fun t => t.id))
    (hwf : WF s) : WF { s with tabs := mapInsert s.tabs symbol row' } := by
  have hmem : symbol ∈ keysOf s.tabs := mapFind?_mem_keys _ _ _ hfind
  have hkeys : keysOf (mapInsert s.tabs symbol row') = keysOf s.tabs :=
    keysOf_mapInsert_found _ _ _ hmem
  obtain ⟨hok, hav, hbe⟩ := hwf.rows symbol row hfind
  constructor
  · exact hwf.counterPos
  · show (keysOf (mapInsert s.tabs symbol row')).Nodup
    rw [hkeys]
    exact hwf.tabsNodup
  · intro k hk
    rw [hkeys] at hk
    exact hwf.tabsBound k hk
  · exact hwf.symsBound
  · exact hwf.tagsBound
  · intro k row0 h0
    rw [mapFind?_mapInsert] at h0
    by_cases hks : symbol = k
    · rw [if_pos hks] at h0
      cases h0
      refine ⟨hok', ?_, ?_⟩
      · rw [avoid_def]
        intro x hx hkk
        exact (avoid_def _ _).mp hav x (hsub x hx) (hkeys ▸ hkk)
      · rw [below_def]
        intro x hx
        exact (below_def _ _).mp hbe x (hsub x hx)
    · rw [if_neg hks] at h0
      obtain ⟨g1, g2, g3⟩ := hwf.rows k row0 h0
      refine ⟨g1, ?_, g3⟩
      rw [avoid_def]
      intro x hx hkk
      exact (avoid_def _ _).mp g2 x hx (hkeys ▸ hkk)
  · refine ⟨hwf.obj.1, ?_, hwf.obj.2.2⟩
    rw [avoid_def]
    intro x hx hk
    exact (avoid_def _ _).mp hwf.obj.2.1 x hx (hkeys ▸ hk)
  · refine ⟨hwf.art.1, ?_, hwf.art.2.2⟩
    rw [avoid_def]
    intro x hx hk
    exact (avoid_def _ _).mp hwf.art.2.1 x hx (hkeys ▸ hk)

theorem scrubStep_wf (id : SymbolID) (acc : Solver) (symbol : SymbolID)
    (hwf : WF acc) : WF (scrubStep id acc symbol) := by
  unfold scrubStep
  cases hf : mapFind? acc.tabs symbol with
  | none => exact hwf
  | some row =>
    dsimp only
    cases hco : findTerm? row.expr.terms id with
    | none => exact hwf
    | some c =>
      dsimp only
      refine rowShrink_wf acc symbol row _ hf ?_ ?_ hwf
      · exact removeFirst_nodup _ _ (hwf.rows symbol row hf).1
      · intro x hx
        exact removeFirst_ids_sub _ _ _ hx

theorem foldl_scrubStep_wf (id : SymbolID) :
    ∀ (l : List SymbolID) (acc : Solver), WF acc →
      WF (l.foldl (scrubStep id) acc) := by
  intro l
  induction l with
  | nil => intro acc h; exact h
  | cons x xs ih => intro acc h; exact ih _ (scrubStep_wf _ _ _ h)

theorem objShrink_wf (s : Solver) (id : SymbolID) (hwf : WF s) :
    WF { s with objective := { s.objective with terms := removeFirst s.objective.terms id } } := by
  refine ⟨hwf.counterPos, hwf.tabsNodup, hwf.tabsBound, hwf.symsBound,
    hwf.tagsBound, hwf.rows, ?_, hwf.art⟩
  refine ⟨removeFirst_nodup _ _ hwf.obj.1, ?_, ?_⟩
  · rw [avoid_def]
    intro x hx hk
    exact (avoid_def _ _).mp hwf.obj.2.1 x (removeFirst_ids_sub _ _ _ hx) hk
  · rw [below_def]
    intro x hx
    exact (below_def _ _).mp hwf.obj.2.2 x (removeFirst_ids_sub _ _ _ hx)

theorem scrubFinish_wf (ord : List SymbolID → List SymbolID) (s : Solver)
    (id : SymbolID) (b : Bool) (hwf : WF s) : WF (scrubFinish ord s id b).1 := by
  unfold scrubFinish
  dsimp only
  split
  · dsimp only
    split
    · exact foldl_scrubStep_wf id (ord (keysOf s.tabs)) s hwf
    · exact objShrink_wf _ id (foldl_scrubStep_wf id (ord (keysOf s.tabs)) s hwf)
  · dsimp only
    split
    · exact foldl_scrubStep_wf id (ord (keysOf s.tabs)) s hwf
    · exact objShrink_wf _ id (foldl_scrubStep_wf id (ord (keysOf s.tabs)) s hwf)

theorem artInstall_wf (s : Solver) (sym : Symbol) (row : Constraint) (hwf : WF s)
    (hok : ExprOK row.expr) (hav : Avoid (keysOf s.tabs) row.expr)
    (hbe : IdsBelow s.counter row.expr) :
    WF { s with symbols := mapInsert s.symbols s.counter sym, counter := s.counter + 1, tabs := mapInsert s.tabs s.counter row, artificial := row.expr } := by
  have hincr : s.counter < s.counter + 1 := lt_add_one _
  have hnot : ∀ e : Expr, IdsBelow s.counter e →
      s.counter ∉ e.terms.map (fun t => t.id) := by
    intro e hb hm
    exact absurd ((below_def _ _).mp hb _ hm) (lt_irrefl _)
  refine install_wf { s with symbols := mapInsert s.symbols s.counter sym, counter := s.counter + 1, artificial := row.expr } s.counter row ?_ ?_ ?_ ?_ ?_ ?_ ?_ ?_ hok hav ?_ ?_ ?_
  · exact le_trans hwf.counterPos (le_of_lt hincr)
  · exact hwf.tabsNodup
  · intro k hk
    exact lt_trans (hwf.tabsBound k hk) hincr
  · intro k hk
    rcases keysOf_mapInsert_cases _ _ _ k hk with hm | hm
    · exact lt_trans (hwf.symsBound k hm) hincr
    · exact hm ▸ hincr
  · intro p hp
    exact ⟨lt_trans (hwf.tagsBound p hp).1 hincr, lt_trans (hwf.tagsBound p hp).2 hincr⟩
  · intro k row0 h0
    obtain ⟨g1, g2, g3⟩ := hwf.rows k row0 h0
    exact ⟨⟨g1, g2, below_mono _ _ _ g3 (le_of_lt hincr)⟩, hnot _ g3⟩
  · exact ⟨⟨hwf.obj.1, hwf.obj.2.1, below_mono _ _ _ hwf.obj.2.2 (le_of_lt hincr)⟩,
      hnot _ hwf.obj.2.2⟩
  · exact ⟨⟨hok, hav, below_mono _ _ _ hbe (le_of_lt hincr)⟩, hnot _ hbe⟩
  · exact below_mono _ _ _ hbe (le_of_lt hincr)
  · exact hnot _ hbe
  · exact hincr

theorem optimizeAgainstRow_wf (ord : List SymbolID → List SymbolID)
    (hcov : Covers ord) (fuel : Nat) (s : Solver) (row : Constraint)
    (hwf : WF s) (hok : ExprOK row.expr) (hav : Avoid (keysOf s.tabs) row.expr)
    (hbe : IdsBelow s.counter row.expr) (res : Solver × Option SolverError)
    (h : s.optimizeAgainstRow ord fuel row = some res) : WF res.1 := by
  unfold Solver.optimizeAgainstRow at h
  dsimp only at h
  split at h
  · cases h
  · rename_i s3 hopt
    have hwf3 : WF s3 := optimizeAgainst_wf ord hcov fuel .art _ s3
      (artInstall_wf s .slack row hwf hok hav hbe) hopt
    have hwf4 : WF { s3 with artificial := (⟨0, []⟩ : Expr) } :=
      ⟨hwf3.counterPos, hwf3.tabsNodup, hwf3.tabsBound, hwf3.symsBound,
        hwf3.tagsBound, hwf3.rows, hwf3.obj,
        ⟨List.Pairwise.nil, fun t ht => absurd ht (List.not_mem_nil t), fun t ht => absurd ht (List.not_mem_nil t)⟩⟩
    split at h
    · rename_i artRow hfnd
      split at h
      · cases h
        exact erase_key_wf _ _ hwf4
      · split at h
        · cases h
          exact erase_key_wf _ _ hwf4
        · rename_i hne
          cases h
          obtain ⟨hok4, hav4, hbe4⟩ := hwf4.rows _ artRow hfnd
          refine scrubFinish_wf ord _ _ _ ?_
          refine erase_subst_install_wf ord hcov _ _ _ artRow hwf4 hok4 hav4 hbe4
            (hwf4.tabsBound _ (mapFind?_mem_keys _ _ _ hfnd)) ?_
          rcases restrictedScan_mem _ artRow.expr.terms with h1 | h1
          · exact absurd h1 hne
          · exact (below_def _ _).mp hbe4 _ h1
    · cases h
      exact scrubFinish_wf ord _ _ _ hwf4

theorem optimizeAgainst_counter (ord : List SymbolID → List SymbolID) :
    ∀ (fuel : Nat) (tgt : Target) (s s' : Solver),
      Solver.optimizeAgainst ord fuel tgt s = some s' → s'.counter = s.counter := by
  intro fuel
  induction fuel with
  | zero => intro tgt s s' h; cases h
  | succ n ih =>
    intro tgt s s' h
    unfold Solver.optimizeAgainst at h
    dsimp only at h
    split at h
    · cases h
      rfl
    · have hrec := ih tgt _ s' h
      rw [hrec]
      exact (pivotStep_parts ord s _).2.2

theorem scrubStep_counter (id : SymbolID) (acc : Solver) (symbol : SymbolID) :
    (scrubStep id acc symbol).counter = acc.counter := by
  unfold scrubStep
  split
  · rfl
  · split
    · rfl
    · rfl

theorem foldl_scrubStep_counter (id : SymbolID) :
    ∀ (l : List SymbolID) (acc : Solver),
      (List.foldl (scrubStep id) acc l).counter = acc.counter := by
  intro l
  induction l with
  | nil => intro acc; rfl
  | cons x xs ih =>
    intro acc
    rw [List.foldl_cons, ih, scrubStep_counter]

theorem scrubFinish_counter (ord : List SymbolID → List SymbolID) (s : Solver)
    (id : SymbolID) (b : Bool) : (scrubFinish ord s id b).1.counter = s.counter := by
  unfold scrubFinish
  dsimp only
  split
  · split
    · exact foldl_scrubStep_counter id (ord (keysOf s.tabs)) s
    · exact foldl_scrubStep_counter id (ord (keysOf s.tabs)) s
  · split
    · exact foldl_scrubStep_counter id (ord (keysOf s.tabs)) s
    · exact foldl_scrubStep_counter id (ord (keysOf s.tabs)) s

theorem optimizeAgainstRow_counter (ord : List SymbolID → List SymbolID)
    (fuel : Nat) (s : Solver) (row : Constraint) (res : Solver × Option SolverError)
    (h : s.optimizeAgainstRow ord fuel row = some res) :
    res.1.counter = s.counter + 1 := by
  unfold Solver.optimizeAgainstRow at h
  dsimp only at h
  split at h
  · cases h
  · rename_i s3 hopt
    have hc3 : s3.counter = s.counter + 1 :=
      optimizeAgainst_counter ord fuel .art _ s3 hopt
    split at h
    · rename_i artRow hfnd
      split at h
      · cases h
        exact hc3
      · split at h
        · cases h
          exact hc3
        · cases h
          rw [scrubFinish_counter]
          refine Eq.trans ?_ hc3
          exact (substitute_parts ord _ _ _).2.2
    · cases h
      rw [scrubFinish_counter]
      exact hc3

theorem new_wf (s : Solver) (sym : Symbol) (hwf : WF s) : WF (s.new sym).1 := by
  have hincr : s.counter < s.counter + 1 := lt_add_one _
  refine ⟨le_trans hwf.counterPos (le_of_lt hincr), hwf.tabsNodup, ?_, ?_, ?_, ?_, ?_, ?_⟩
  · intro k hk
    exact lt_trans (hwf.tabsBound k hk) hincr
  · intro k hk
    rcases keysOf_mapInsert_cases _ _ _ k hk with hm | hm
    · exact lt_trans (hwf.symsBound k hm) hincr
    · exact hm ▸ hincr
  · intro p hp
    exact ⟨lt_trans (hwf.tagsBound p hp).1 hincr, lt_trans (hwf.tagsBound p hp).2 hincr⟩
  · intro k row0 h0
    obtain ⟨g1, g2, g3⟩ := hwf.rows k row0 h0
    exact ⟨g1, g2, below_mono _ _ _ g3 (le_of_lt hincr)⟩
  · exact ⟨hwf.obj.1, hwf.obj.2.1, below_mono _ _ _ hwf.obj.2.2 (le_of_lt hincr)⟩
  · exact ⟨hwf.art.1, hwf.art.2.1, below_mono _ _ _ hwf.art.2.2 (le_of_lt hincr)⟩

theorem objAdd_wf (s : Solver) (k : ℚ) (id : SymbolID) (hwf : WF s)
    (hid : id < s.counter) (hnk : id ∉ keysOf s.tabs) :
    WF { s with objective := s.objective.addSymbol k id } := by
  refine ⟨hwf.counterPos, hwf.tabsNodup, hwf.tabsBound, hwf.symsBound,
    hwf.tagsBound, hwf.rows, ?_, hwf.art⟩
  refine ⟨addSymbol_nodup _ _ _ hwf.obj.1, ?_, ?_⟩
  · rw [avoid_def]
    intro x hx hkk
    rcases addSymbol_ids_sub _ _ _ x hx with h1 | h1
    · exact (avoid_def _ _).mp hwf.obj.2.1 x h1 hkk
    · exact hnk (h1 ▸ hkk)
  · rw [below_def]
    intro x hx
    rcases addSymbol_ids_sub _ _ _ x hx with h1 | h1
    · exact (below_def _ _).mp hwf.obj.2.2 x h1
    · exact h1 ▸ hid

theorem addSym_props (e : Expr) (K : List SymbolID) (n : SymbolID) (k : ℚ)
    (id : SymbolID) (hok : ExprOK e) (hav : Avoid K e) (hbe : IdsBelow n e)
    (hkn : id ∉ K) (hlt : id < n) :
    ExprOK (e.addSymbol k id) ∧ Avoid K (e.addSymbol k id) ∧
      IdsBelow n (e.addSymbol k id) := by
  refine ⟨addSymbol_nodup _ _ _ hok, ?_, ?_⟩
  · rw [avoid_def]
    intro x hx hk
    rcases addSymbol_ids_sub _ _ _ x hx with h1 | h1
    · exact (avoid_def _ _).mp hav x h1 hk
    · exact hkn (h1 ▸ hk)
  · rw [below_def]
    intro x hx
    rcases addSymbol_ids_sub _ _ _ x hx with h1 | h1
    · exact (below_def _ _).mp hbe x h1
    · exact h1 ▸ hlt

theorem condNegate_props (c : Prop) [Decidable c] (e : Expr) (K : List SymbolID)
    (n : SymbolID) (hok : ExprOK e) (hav : Avoid K e) (hbe : IdsBelow n e) :
    ExprOK (if c then e.negate else e) ∧ Avoid K (if c then e.negate else e) ∧
      IdsBelow n (if c then e.negate else e) := by
  split
  · refine ⟨?_, ?_, ?_⟩
    · show ((e.negate.terms).map (fun t => t.id)).Nodup
      rw [negate_ids]
      exact hok
    · rw [avoid_def, negate_ids]
      exact (avoid_def _ _).mp hav
    · rw [below_def, negate_ids]
      exact (below_def _ _).mp hbe
  · exact ⟨hok, hav, hbe⟩

theorem externalScan_mem_ids (s : Solver) :
    ∀ (ts : List Term) (id : SymbolID), externalScan s ts = some id →
      id ∈ ts.map (fun t => t.id) := by
  intro ts
  induction ts with
  | nil => intro id h; cases h
  | cons t ts ih =>
    intro id h
    unfold externalScan at h
    split at h
    · cases h
      exact List.mem_cons_self _ _
    · exact List.mem_cons_of_mem _ (ih id h)

theorem findSubject_cases (s : Solver) (cell : Constraint) (tag : Tag)
    (subject : SymbolID) (h : s.findSubject cell tag = .ok subject) :
    subject ∈ cell.expr.terms.map (fun t => t.id) ∨ subject = tag.marker ∨
      subject = tag.other ∨ subject = InvalidSymbolID := by
  unfold Solver.findSubject at h
  split at h
  · rename_i sid hexts
    cases h
    exact Or.inl (externalScan_mem_ids s cell.expr.terms _ hexts)
  · split at h
    · cases h
      exact Or.inr (Or.inl rfl)
    · split at h
      · cases h
        exact Or.inr (Or.inr (Or.inl rfl))
      · split at h
        · cases h
          exact Or.inr (Or.inr (Or.inr rfl))
        · split at h
          · cases h
          · cases h
            exact Or.inr (Or.inl rfl)

theorem resolveTerms_props (s : Solver) (hwf : WF s) :
    ∀ (ts : List Term) (acc : Expr), ExprOK acc → Avoid (keysOf s.tabs) acc →
      IdsBelow s.counter acc →
      ∀ resolved, s.resolveTerms ts acc = .ok resolved →
        ExprOK resolved ∧ Avoid (keysOf s.tabs) resolved ∧
          IdsBelow s.counter resolved := by
  intro ts
  induction ts with
  | nil =>
    intro acc h1 h2 h3 resolved h
    unfold Solver.resolveTerms at h
    cases h
    exact ⟨h1, h2, h3⟩
  | cons t ts ih =>
    intro acc h1 h2 h3 resolved h
    unfold Solver.resolveTerms at h
    split at h
    · exact ih acc h1 h2 h3 resolved h
    · split at h
      · cases h
      · rename_i v hsym
        split at h
        · rename_i htab
          refine ih _ ?_ ?_ ?_ resolved h
          · exact addSymbol_nodup _ _ _ h1
          · rw [avoid_def]
            intro x hx hk
            rcases addSymbol_ids_sub _ _ _ x hx with hm | hm
            · exact (avoid_def _ _).mp h2 x hm hk
            · exact (mapFind?_none_iff _ _).mp htab (hm ▸ hk)
          · rw [below_def]
            intro x hx
            rcases addSymbol_ids_sub _ _ _ x hx with hm | hm
            · exact (below_def _ _).mp h3 x hm
            · exact hm ▸ hwf.symsBound _ (mapFind?_mem_keys _ _ _ hsym)
        · rename_i rrow htab
          obtain ⟨g1, g2, g3⟩ := hwf.rows _ rrow htab
          refine ih _ ?_ ?_ ?_ resolved h
          · exact addExpr_nodup _ _ _ h1
          · rw [avoid_def]
            intro x hx hk
            rcases addExpr_ids_sub _ _ _ x hx with hm | hm
            · exact (avoid_def _ _).mp h2 x hm hk
            · exact (avoid_def _ _).mp g2 x hm hk
          · rw [below_def]
            intro x hx
            rcases addExpr_ids_sub _ _ _ x hx with hm | hm
            · exact (below_def _ _).mp h3 x hm
            · exact (below_def _ _).mp g3 x hm

theorem augment_props (s : Solver) (prio : Priority) (op : Op) (e : Expr)
    (hwf : WF s) (hok : ExprOK e) (hav : Avoid (keysOf s.tabs) e)
    (hbe : IdsBelow s.counter e) :
    WF (s.augment prio op e).1 ∧ (s.augment prio op e).1.tabs = s.tabs ∧
      ExprOK (s.augment prio op e).2.2 ∧
      Avoid (keysOf s.tabs) (s.augment prio op e).2.2 ∧
      IdsBelow (s.augment prio op e).1.counter (s.augment prio op e).2.2 ∧
      (s.augment prio op e).2.1.marker < (s.augment prio op e).1.counter ∧
      (s.augment prio op e).2.1.other < (s.augment prio op e).1.counter ∧
      (s.augment prio op e).2.1.marker ∉ keysOf s.tabs ∧
      ((s.augment prio op e).2.1.other ∉ keysOf s.tabs ∨
        (s.augment prio op e).2.1.other = InvalidSymbolID) := by
  have h01 : s.counter < s.counter + 1 := lt_add_one _
  have h12 : s.counter + 1 < s.counter + 1 + 1 := lt_add_one _
  have h02 : s.counter < s.counter + 1 + 1 := lt_trans h01 h12
  have hcfresh : s.counter ∉ keysOf s.tabs :=
    fun hm => absurd (hwf.tabsBound _ hm) (lt_irrefl _)
  have hcfresh1 : s.counter + 1 ∉ keysOf s.tabs :=
    fun hm => absurd (hwf.tabsBound _ hm) (lt_asymm h01)
  have hinv1 : InvalidSymbolID < s.counter + 1 :=
    lt_of_le_of_lt (le_trans (by decide) hwf.counterPos) h01
  unfold Solver.augment
  cases op
  all_goals dsimp only
  case eq =>
    split
    · dsimp only
      obtain ⟨k1, k2, k3⟩ := addSym_props e (keysOf s.tabs) (s.counter + 1 + 1)
        (-1) s.counter hok hav (below_mono _ _ _ hbe (le_of_lt h02)) hcfresh h02
      obtain ⟨l1, l2, l3⟩ := addSym_props _ (keysOf s.tabs) (s.counter + 1 + 1)
        1 (s.counter + 1) k1 k2 k3 hcfresh1 h12
      refine ⟨?_, rfl, l1, l2, l3, h02, h12, hcfresh, Or.inl hcfresh1⟩
      exact objAdd_wf _ prio.val (s.counter + 1)
        (objAdd_wf _ prio.val s.counter (new_wf _ .error (new_wf _ .error hwf))
          h02 hcfresh)
        h12 hcfresh1
    · dsimp only
      obtain ⟨k1, k2, k3⟩ := addSym_props e (keysOf s.tabs) (s.counter + 1)
        1 s.counter hok hav (below_mono _ _ _ hbe (le_of_lt h01)) hcfresh h01
      exact ⟨new_wf _ .dummy hwf, rfl, k1, k2, k3, h01, hinv1, hcfresh, Or.inr rfl⟩
  all_goals {
    split
    · dsimp only
      obtain ⟨k1, k2, k3⟩ := addSym_props e (keysOf s.tabs) (s.counter + 1 + 1)
        _ s.counter hok hav (below_mono _ _ _ hbe (le_of_lt h02)) hcfresh h02
      obtain ⟨l1, l2, l3⟩ := addSym_props _ (keysOf s.tabs) (s.counter + 1 + 1)
        _ (s.counter + 1) k1 k2 k3 hcfresh1 h12
      refine ⟨?_, rfl, l1, l2, l3, h02, h12, hcfresh, Or.inl hcfresh1⟩
      exact objAdd_wf _ prio.val (s.counter + 1)
        (new_wf _ .error (new_wf _ .slack hwf)) h12 hcfresh1
    · dsimp only
      obtain ⟨k1, k2, k3⟩ := addSym_props e (keysOf s.tabs) (s.counter + 1)
        _ s.counter hok hav (below_mono _ _ _ hbe (le_of_lt h01)) hcfresh h01
      exact ⟨new_wf _ .slack hwf, rfl, k1, k2, k3, h01, hinv1, hcfresh, Or.inr rfl⟩
  }

theorem subst_install_wf (ord : List SymbolID → List SymbolID) (hcov : Covers ord)
    (s1 : Solver) (subject : SymbolID) (op : Op) (e3 : Expr)
    (hwf : WF s1) (hok : ExprOK e3)
    (hide : subject ∉ e3.terms.map (fun t => t.id))
    (hav : Avoid (keysOf s1.tabs) e3) (hbe : IdsBelow s1.counter e3)
    (_hnk : subject ∉ keysOf s1.tabs) (hslt : subject < s1.counter) :
    WF (let s2 := Solver.substitute ord s1 subject e3
        { s2 with tabs := mapInsert s2.tabs subject (⟨op, e3⟩ : Constraint) }) := by
  dsimp only
  obtain ⟨hkeys2, hrows2, hobj2, hart2, hsym2⟩ :=
    substitute_pack ord hcov s1 subject e3 s1.counter hok hide hav hbe
      (fun k row h0 => hwf.rows k row h0)
  obtain ⟨htg2, hed2, hct2⟩ := substitute_parts ord s1 subject e3
  set s2 := Solver.substitute ord s1 subject e3 with hs2def
  refine install_wf s2 subject ⟨op, e3⟩ (by rw [hct2]; exact hwf.counterPos)
    (by rw [hkeys2]; exact hwf.tabsNodup) ?_ ?_ ?_ ?_ ?_ ?_ hok
    (by rw [hkeys2]; exact hav) (by rw [hct2]; exact hbe) hide
    (by rw [hct2]; exact hslt)
  · intro k hk
    rw [hkeys2] at hk
    rw [hct2]
    exact hwf.tabsBound k hk
  · intro k hk
    rw [hsym2] at hk
    rw [hct2]
    exact hwf.symsBound k hk
  · intro p hp
    rw [htg2] at hp
    rw [hct2]
    exact hwf.tagsBound p hp
  · intro k row0 h0
    obtain ⟨⟨g1, g2, g3⟩, g4⟩ := hrows2 k row0 h0
    exact ⟨⟨g1, by rw [hkeys2]; exact g2, by rw [hct2]; exact g3⟩, g4⟩
  · rw [hobj2]
    refine ⟨⟨substitute_nodup _ _ _ hwf.obj.1, ?_, ?_⟩, ?_⟩
    · rw [avoid_def]
      intro x hx hk
      rcases substitute_ids_sub _ _ _ x hx with h1 | h1
      · exact (avoid_def _ _).mp hwf.obj.2.1 x h1 (hkeys2 ▸ hk)
      · exact (avoid_def _ _).mp hav x h1 (hkeys2 ▸ hk)
    · rw [hct2, below_def]
      intro x hx
      rcases substitute_ids_sub _ _ _ x hx with h1 | h1
      · exact (below_def _ _).mp hwf.obj.2.2 x h1
      · exact (below_def _ _).mp hbe x h1
    · exact substitute_scrub _ _ _ hwf.obj.1 hide
  · rw [hart2]
    refine ⟨⟨substitute_nodup _ _ _ hwf.art.1, ?_, ?_⟩, ?_⟩
    · rw [avoid_def]
      intro x hx hk
      rcases substitute_ids_sub _ _ _ x hx with h1 | h1
      · exact (avoid_def _ _).mp hwf.art.2.1 x h1 (hkeys2 ▸ hk)
      · exact (avoid_def _ _).mp hav x h1 (hkeys2 ▸ hk)
    · rw [hct2, below_def]
      intro x hx
      rcases substitute_ids_sub _ _ _ x hx with h1 | h1
      · exact (below_def _ _).mp hwf.art.2.2 x h1
      · exact (below_def _ _).mp hbe x h1
    · exact substitute_scrub _ _ _ hwf.art.1 hide

theorem finishTag_wf (ord : List SymbolID → List SymbolID) (hcov : Covers ord)
    (fuel : Nat) (s : Solver) (tag : Tag) (hwf : WF s)
    (hm : tag.marker < s.counter) (ho : tag.other < s.counter)
    (res : Solver × SymbolID × Option SolverError)
    (h : finishTag ord fuel s tag = some res) : WF res.1 := by
  unfold finishTag at h
  dsimp only at h
  have hwf1 : WF { s with tags := mapInsert s.tags tag.marker tag } := by
    refine ⟨hwf.counterPos, hwf.tabsNodup, hwf.tabsBound, hwf.symsBound, ?_,
      hwf.rows, hwf.obj, hwf.art⟩
    intro p hp
    rcases mem_mapInsert _ _ _ p hp with h1 | h1
    · exact hwf.tagsBound p h1
    · rw [h1]
      exact ⟨hm, ho⟩
  split at h
  · cases h
  · rename_i s2 hopt
    cases h
    exact optimizeAgainst_wf ord hcov fuel .obj _ _ hwf1 hopt

theorem addTail_wf (ord : List SymbolID → List SymbolID) (hcov : Covers ord)
    (fuel : Nat) (s1 : Solver) (tag : Tag) (op : Op) (e2 : Expr)
    (hwf1 : WF s1) (hok : ExprOK e2) (hav : Avoid (keysOf s1.tabs) e2)
    (hbe : IdsBelow s1.counter e2)
    (hmlt : tag.marker < s1.counter) (holt : tag.other < s1.counter)
    (hmk : tag.marker ∉ keysOf s1.tabs)
    (hotherk : tag.other ∉ keysOf s1.tabs ∨ tag.other = InvalidSymbolID)
    (out : Solver × SymbolID × Option SolverError)
    (h : (match s1.findSubject ⟨op, e2⟩ tag with
          | .error err => some (s1, InvalidSymbolID, some err)
          | .ok subject =>
            if subject = InvalidSymbolID then
              match Solver.optimizeAgainstRow ord fuel s1 ⟨op, e2⟩ with
              | none => none
              | some (s2, some err) => some (s2, tag.marker, some err)
              | some (s2, none) => finishTag ord fuel s2 tag
            else
              finishTag ord fuel
                { (Solver.substitute ord s1 subject (e2.solveFor subject)) with
                  tabs := mapInsert
                    (Solver.substitute ord s1 subject (e2.solveFor subject)).tabs
                    subject (⟨op, e2.solveFor subject⟩ : Constraint) } tag)
          = some out) :
    WF out.1 := by
  split at h
  · cases h
    exact hwf1
  · rename_i subject hfs
    split at h
    · split at h
      · cases h
      · rename_i s2 err hrow
        cases h
        exact optimizeAgainstRow_wf ord hcov fuel s1 ⟨op, e2⟩ hwf1 hok hav hbe
          _ hrow
      · rename_i s2 hrow
        have hwf2 : WF s2 := optimizeAgainstRow_wf ord hcov fuel s1 ⟨op, e2⟩
          hwf1 hok hav hbe (s2, none) hrow
        have hc2 : s2.counter = s1.counter + 1 :=
          optimizeAgainstRow_counter ord fuel s1 ⟨op, e2⟩ (s2, none) hrow
        refine finishTag_wf ord hcov fuel s2 tag hwf2 ?_ ?_ out h
        · rw [hc2]
          exact lt_trans hmlt (lt_add_one _)
        · rw [hc2]
          exact lt_trans holt (lt_add_one _)
    · rename_i hne
      have hsubj := findSubject_cases s1 ⟨op, e2⟩ tag subject hfs
      have hs_nk : subject ∉ keysOf s1.tabs := by
        rcases hsubj with h1 | h1 | h1 | h1
        · exact (avoid_def _ _).mp hav subject h1
        · rw [h1]
          exact hmk
        · rcases hotherk with h2 | h2
          · rw [h1]
            exact h2
          · exact absurd (h1.trans h2) hne
        · exact absurd h1 hne
      have hs_lt : subject < s1.counter := by
        rcases hsubj with h1 | h1 | h1 | h1
        · exact (below_def _ _).mp hbe subject h1
        · rw [h1]
          exact hmlt
        · rw [h1]
          exact holt
        · exact absurd h1 hne
      have he3ok : ExprOK (e2.solveFor subject) := solveFor_nodup _ _ hok
      have he3na : subject ∉ (e2.solveFor subject).terms.map (fun t => t.id) :=
        solveFor_self_not_mem _ _ hok
      have he3av : Avoid (keysOf s1.tabs) (e2.solveFor subject) := by
        rw [avoid_def]
        intro x hx hk
        exact (avoid_def _ _).mp hav x (solveFor_ids_sub _ _ _ hx) hk
      have he3be : IdsBelow s1.counter (e2.solveFor subject) := by
        rw [below_def]
        intro x hx
        exact (below_def _ _).mp hbe x (solveFor_ids_sub _ _ _ hx)
      have hwf3 := subst_install_wf ord hcov s1 subject op (e2.solveFor subject)
        hwf1 he3ok he3na he3av he3be hs_nk hs_lt
      refine finishTag_wf ord hcov fuel _ tag hwf3 ?_ ?_ out h
      · show tag.marker <
          (Solver.substitute ord s1 subject (e2.solveFor subject)).counter
        rw [(substitute_parts ord s1 subject (e2.solveFor subject)).2.2]
        exact hmlt
      · show tag.other <
          (Solver.substitute ord s1 subject (e2.solveFor subject)).counter
        rw [(substitute_parts ord s1 subject (e2.solveFor subject)).2.2]
        exact holt

theorem addConstraintWithPriority_wf (ord : List SymbolID → List SymbolID)
    (hcov : Covers ord) (fuel : Nat) (s : Solver) (prio : Priority)
    (cell : Constraint) (s' : Solver) (m : SymbolID) (r : Option SolverError)
    (hwf : WF s)
    (h : s.addConstraintWithPriority ord fuel prio cell = some (s', m, r)) :
    WF s' := by
  unfold Solver.addConstraintWithPriority at h
  split at h
  · cases h
    exact hwf
  · rename_i resolved hres
    dsimp only at h
    obtain ⟨hok0, hav0, hbe0⟩ := resolveTerms_props s hwf cell.expr.terms
      ⟨cell.expr.constant, []⟩ List.Pairwise.nil
      (fun t ht => absurd ht (List.not_mem_nil t))
      (fun t ht => absurd ht (List.not_mem_nil t)) resolved hres
    obtain ⟨hwf1, htabs1, hok1, hav1, hbe1, hmlt, holt, hmk, hotherk⟩ :=
      augment_props s prio cell.op resolved hwf hok0 hav0 hbe0
    obtain ⟨hok2, hav2, hbe2⟩ := condNegate_props
      ((s.augment prio cell.op resolved).2.2.constant < 0)
      (s.augment prio cell.op resolved).2.2 (keysOf s.tabs)
      (s.augment prio cell.op resolved).1.counter hok1 hav1 hbe1
    rw [← htabs1] at hav2 hmk hotherk
    exact addTail_wf ord hcov fuel (s.augment prio cell.op resolved).1
      (s.augment prio cell.op resolved).2.1 cell.op _ hwf1 hok2 hav2 hbe2
      hmlt holt hmk hotherk (s', m, r) h

theorem edit_wf (ord : List SymbolID → List SymbolID) (hcov : Covers ord)
    (fuel : Nat) (s : Solver) (id : SymbolID) (prio : Priority) (s' : Solver)
    (r : Option SolverError) (hwf : WF s)
    (h : Solver.edit ord fuel s id prio = some (s', r)) : WF s' := by
  unfold Solver.edit at h
  split at h
  · cases h
    exact hwf
  · dsimp only at h
    split at h
    · cases h
    · rename_i s1 marker outcome hadd
      have hwf1 : WF s1 :=
        addConstraintWithPriority_wf ord hcov fuel s prio _ s1 marker outcome
          hwf hadd
      split at h
      · cases h
        exact hwf1
      · cases h
        exact wf_transfer _ _ hwf1 rfl rfl rfl rfl rfl rfl

theorem newSolver_wf : WF newSolver := by
  refine ⟨le_refl 0, List.Pairwise.nil, ?_, ?_, ?_, ?_, ?_, ?_⟩
  · intro k hk
    cases hk
  · intro k hk
    cases hk
  · intro p hp
    cases hp
  · intro k row h
    cases h
  · exact ⟨List.Pairwise.nil, fun t ht => absurd ht (List.not_mem_nil t),
      fun t ht => absurd ht (List.not_mem_nil t)⟩
  · exact ⟨List.Pairwise.nil, fun t ht => absurd ht (List.not_mem_nil t),
      fun t ht => absurd ht (List.not_mem_nil t)⟩

theorem runOp_wf (ord : List SymbolID → List SymbolID) (hcov : Covers ord)
    (fuel : Nat) (s : Solver) (op : SolverOp) (s' : Solver) (hwf : WF s)
    (h : runOp ord fuel s op = some s') : WF s' := by
  cases op with
  | newVar =>
    unfold runOp at h
    dsimp only at h
    cases h
    exact new_wf s .external hwf
  | addC prio cell =>
    unfold runOp at h
    dsimp only at h
    cases hadd : s.addConstraintWithPriority ord fuel prio cell with
    | none =>
      rw [hadd] at h
      cases h
    | some res =>
      rw [hadd] at h
      cases h
      exact addConstraintWithPriority_wf ord hcov fuel s prio cell
        res.1 res.2.1 res.2.2 hwf hadd
  | removeC marker =>
    unfold runOp at h
    dsimp only at h
    cases hrem : s.removeConstraint ord fuel marker with
    | none =>
      rw [hrem] at h
      cases h
    | some res =>
      rw [hrem] at h
      cases h
      exact removeConstraint_wf ord hcov fuel s marker res.1 res.2 hwf hrem
  | editV id prio =>
    unfold runOp at h
    dsimp only at h
    cases hed : s.edit ord fuel id prio with
    | none =>
      rw [hed] at h
      cases h
    | some res =>
      rw [hed] at h
      cases h
      exact edit_wf ord hcov fuel s id prio res.1 res.2 hwf hed
  | suggestV id v =>
    unfold runOp at h
    dsimp only at h
    cases hsg : s.suggest ord fuel id v with
    | none =>
      rw [hsg] at h
      cases h
    | some res =>
      rw [hsg] at h
      cases h
      exact suggest_wf ord hcov fuel s id v res.1 res.2 hwf hsg

theorem runOps_wf (ord : List SymbolID → List SymbolID) (hcov : Covers ord)
    (fuel : Nat) :
    ∀ (ops : List SolverOp) (s s' : Solver), WF s →
      runOps ord fuel ops s = some s' → WF s' := by
  intro ops
  induction ops with
  | nil =>
    intro s s' hwf h
    cases h
    exact hwf
  | cons op ops ih =>
    intro s s' hwf h
    unfold runOps at h
    cases hop : runOp ord fuel s op with
    | none =>
      rw [hop] at h
      cases h
    | some s1 =>
      rw [hop] at h
      exact ih s1 s' (runOp_wf ord hcov fuel s op s1 hwf hop) h

/-- C8: in every state reachable from the fresh solver by a sequence of
public operations (under any covering map-iteration order and any fuel),
no basic symbol — no key of the tableau — occurs as a term of any stored
row expression, nor of the objective or artificial expressions. -/
theorem basic_symbol_exclusion (ord : List SymbolID → List SymbolID)
    (hcov : Covers ord) (fuel : Nat) (ops : List SolverOp) (s' : Solver)
    (h : runOps ord fuel ops newSolver = some s') :
    (∀ b ∈ keysOf s'.tabs, ∀ k row, mapFind? s'.tabs k = some row →
      findTerm? row.expr.terms b = none) ∧
    (∀ b ∈ keysOf s'.tabs, findTerm? s'.objective.terms b = none ∧
      findTerm? s'.artificial.terms b = none) := by
  have hwf := runOps_wf ord hcov fuel ops newSolver s' newSolver_wf h
  constructor
  · intro b hb k row hrow
    rw [findTerm?_eq_none_iff]
    exact fun hm => (avoid_def _ _).mp (hwf.rows k row hrow).2.1 b hm hb
  · intro b hb
    constructor
    · rw [findTerm?_eq_none_iff]
      exact fun hm => (avoid_def _ _).mp hwf.obj.2.1 b hm hb
    · rw [findTerm?_eq_none_iff]
      exact fun hm => (avoid_def _ _).mp hwf.art.2.1 b hm hb

theorem basic_symbol_exclusion_w :
    Covers ordId ∧ runOps ordId 40 c8Ops newSolver = some c8State ∧
      ((∀ b ∈ keysOf c8State.tabs, ∀ k row, mapFind? c8State.tabs k = some row →
        findTerm? row.expr.terms b = none) ∧
      (∀ b ∈ keysOf c8State.tabs, findTerm? c8State.objective.terms b = none ∧
        findTerm? c8State.artificial.terms b = none)) :=
  ⟨fun _ _ hx => hx, by with_unfolding_all rfl,
    basic_symbol_exclusion ordId (fun _ _ hx => hx) 40 c8Ops c8State
      (by with_unfolding_all rfl)⟩

theorem addTerm_absent_zero (k : ℚ) (id : SymbolID) :
    ∀ (ts : List Term), id ∉ ts.map (fun t => t.id) → zero k = true →
      addTerm ts k id = ts := by
  intro ts
  induction ts with
  | nil =>
    intro _ hz
    unfold addTerm
    rw [if_pos hz]
  | cons t ts ih =>
    intro hab hz
    unfold addTerm
    have hne : ¬(t.id = id) := fun he => hab (List.mem_cons.mpr (Or.inl he.symm))
    rw [if_neg hne, ih (fun hm => hab (List.mem_cons.mpr (Or.inr hm))) hz]

theorem addTerm_absent_nonzero (k : ℚ) (id : SymbolID) :
    ∀ (ts : List Term), id ∉ ts.map (fun t => t.id) → zero k = false →
      addTerm ts k id = ts ++ [⟨k, id⟩] := by
  intro ts
  induction ts with
  | nil =>
    intro _ hz
    unfold addTerm
    rw [if_neg (by simp [hz])]
    rfl
  | cons t ts ih =>
    intro hab hz
    unfold addTerm
    have hne : ¬(t.id = id) := fun he => hab (List.mem_cons.mpr (Or.inl he.symm))
    rw [if_neg hne, ih (fun hm => hab (List.mem_cons.mpr (Or.inr hm))) hz]
    rfl

theorem addTerm_found_zero (k : ℚ) (id : SymbolID) :
    ∀ (ts : List Term) (c : ℚ), findTerm? ts id = some c →
      zero (c + k) = true → addTerm ts k id = removeFirst ts id := by
  intro ts
  induction ts with
  | nil =>
    intro c hc
    cases hc
  | cons t ts ih =>
    intro c hc hz
    unfold findTerm? at hc
    unfold addTerm removeFirst
    by_cases ht : t.id = id
    · rw [if_pos ht] at hc
      cases hc
      rw [if_pos ht, if_pos ht, if_pos hz]
    · rw [if_neg ht] at hc
      rw [if_neg ht, if_neg ht, ih c hc hz]

theorem addTerm_found_nonzero (k : ℚ) (id : SymbolID) :
    ∀ (ts : List Term) (c : ℚ), findTerm? ts id = some c →
      zero (c + k) = false →
      findTerm? (addTerm ts k id) id = some (c + k) ∧
        (addTerm ts k id).map (fun t => t.id) = ts.map (fun t => t.id) := by
  intro ts
  induction ts with
  | nil =>
    intro c hc
    cases hc
  | cons t ts ih =>
    intro c hc hz
    unfold findTerm? at hc
    unfold addTerm
    by_cases ht : t.id = id
    · rw [if_pos ht] at hc
      cases hc
      rw [if_pos ht, if_neg (by simp [hz])]
      constructor
      · unfold findTerm?
        rw [if_pos rfl]
      · rw [List.map_cons, List.map_cons, ht]
    · rw [if_neg ht] at hc
      obtain ⟨g1, g2⟩ := ih c hc hz
      rw [if_neg ht]
      constructor
      · unfold findTerm?
        rw [if_neg ht]
        exact g1
      · rw [List.map_cons, List.map_cons, g2]

/-- C9 (amended): every state reachable by public operations keeps at most
one term per symbol in every stored expression (rows, objective,
artificial), and `addSymbol` coalesces a duplicate symbol into the first
existing term, deletes it when the coalesced coefficient lands within
epsilon of zero, and never appends a fresh term whose coefficient is
already within epsilon of zero.  (The epsilon lower bound on *stored*
coefficients claimed by the spec is refuted separately: `solveFor`
rescaling writes sub-epsilon coefficients into the tableau.) -/
theorem no_ghost_amended (ord : List SymbolID → List SymbolID)
    (hcov : Covers ord) (fuel : Nat) (ops : List SolverOp) (s' : Solver)
    (h : runOps ord fuel ops newSolver = some s') :
    ((∀ k row, mapFind? s'.tabs k = some row →
        (row.expr.terms.map (fun t => t.id)).Nodup) ∧
      (s'.objective.terms.map (fun t => t.id)).Nodup ∧
      (s'.artificial.terms.map (fun t => t.id)).Nodup) ∧
    (∀ (e : Expr) (k : ℚ) (id : SymbolID),
      (id ∉ e.terms.map (fun t => t.id) → zero k = true →
        e.addSymbol k id = e) ∧
      (id ∉ e.terms.map (fun t => t.id) → zero k = false →
        (e.addSymbol k id).terms = e.terms ++ [⟨k, id⟩]) ∧
      (∀ c, findTerm? e.terms id = some c → zero (c + k) = true →
        (e.addSymbol k id).terms = removeFirst e.terms id) ∧
      (∀ c, findTerm? e.terms id = some c → zero (c + k) = false →
        findTerm? (e.addSymbol k id).terms id = some (c + k) ∧
          (e.addSymbol k id).terms.map (fun t => t.id) =
            e.terms.map (fun t => t.id))) := by
  have hwf := runOps_wf ord hcov fuel ops newSolver s' newSolver_wf h
  constructor
  · exact ⟨fun k row hrow => (hwf.rows k row hrow).1, hwf.obj.1, hwf.art.1⟩
  · intro e k id
    refine ⟨?_, ?_, ?_, ?_⟩
    · intro hab hz
      show { e with terms := addTerm e.terms k id } = e
      rw [addTerm_absent_zero k id e.terms hab hz]
    · intro hab hz
      exact addTerm_absent_nonzero k id e.terms hab hz
    · intro c hc hz
      exact addTerm_found_zero k id e.terms c hc hz
    · intro c hc hz
      exact addTerm_found_nonzero k id e.terms c hc hz

theorem no_ghost_amended_w :
    Covers ordId ∧ runOps ordId 40 c9Ops newSolver = some c9State ∧
      (((∀ k row, mapFind? c9State.tabs k = some row →
          (row.expr.terms.map (fun t => t.id)).Nodup) ∧
        (c9State.objective.terms.map (fun t => t.id)).Nodup ∧
        (c9State.artificial.terms.map (fun t => t.id)).Nodup) ∧
      (∀ (e : Expr) (k : ℚ) (id : SymbolID),
        (id ∉ e.terms.map (fun t => t.id) → zero k = true →
          e.addSymbol k id = e) ∧
        (id ∉ e.terms.map (fun t => t.id) → zero k = false →
          (e.addSymbol k id).terms = e.terms ++ [⟨k, id⟩]) ∧
        (∀ c, findTerm? e.terms id = some c → zero (c + k) = true →
          (e.addSymbol k id).terms = removeFirst e.terms id) ∧
        (∀ c, findTerm? e.terms id = some c → zero (c + k) = false →
          findTerm? (e.addSymbol k id).terms id = some (c + k) ∧
            (e.addSymbol k id).terms.map (fun t => t.id) =
              e.terms.map (fun t => t.id)))) :=
  ⟨fun _ _ hx => hx, by with_unfolding_all rfl,
    no_ghost_amended ordId (fun _ _ hx => hx) 40 c9Ops c9State
      (by with_unfolding_all rfl)⟩

/-- C9 counterexample: adding the single Required equality
`1e9·x + y = 0` stores under the basic symbol `x` a row whose remaining
coefficients are `-1e-9`, strictly within the `1e-8` epsilon — stored
expressions do *not* keep all coefficients at magnitude ≥ epsilon. -/
theorem stored_ghost_coefficient :
    runOps ordId 40 c9Ops newSolver = some c9State ∧
      (mapFind? c9State.tabs 0).isSome = true ∧
      ((((mapFind? c9State.tabs 0).getD zeroConstraint).expr.terms.any
        (fun t => zero t.coeff)) = true) :=
  ⟨by with_unfolding_all rfl, by with_unfolding_all rfl,
    by with_unfolding_all rfl⟩

/-- C7: refuted — both insertion-order and reversed iteration are legal Go
map range orders (they cover the keys), the operation sequence `c7Ops`
completes without error under both, yet the final `Val` of external symbol
`0` is 10 under one order and 0 under the other: the observable result of
the same operation sequence on a fresh solver depends on the map iteration
order, which Go randomizes between runs. -/
theorem determinism_fails :
    Covers ordId ∧ Covers ordRev ∧
      (runOps ordId 60 c7Ops newSolver).map (fun s => s.val 0) =
        some (10 : ℚ) ∧
      (runOps ordRev 60 c7Ops newSolver).map (fun s => s.val 0) =
        some (0 : ℚ) ∧
      (runOps ordId 60 c7Ops newSolver).map (fun s => s.val 0) ≠
        (runOps ordRev 60 c7Ops newSolver).map (fun s => s.val 0) :=
  ⟨fun _ _ hx => hx,
    fun _ x hx => List.mem_reverse.mpr hx,
    by with_unfolding_all decide,
    by with_unfolding_all decide,
    by with_unfolding_all decide⟩

theorem edit_reedit_overwrites_w :
    c10Res.2 ≠ some SolverError.badPriority ∧
      (∀ m, c10Res.2 ≠ some (SolverError.notEdit m)) ∧
      (c10Res.2 = none →
        ∃ tag : Tag, mapFind? c10Res.1.edits 0 = some ⟨tag, 0⟩ ∧
          tag.prio = Medium ∧ tag.marker = c10Base.counter ∧
          mapFind? c10Res.1.tags tag.marker = some tag ∧
          ∀ v : ℚ, c10Res.1.suggestDelta 0 v = v) :=
  edit_reedit_overwrites ordId 40 c10Base 0 Medium (by decide)
    (by with_unfolding_all decide) c10Res (by with_unfolding_all rfl)

end Casso
